import Mathlib

/-!
# Verification of the psscript-manager agent subsystem

A shallow embedding, in Lean 4, of the Python agent layer of psscript-manager
(`src/ai/agents/`): the task-planning graph, the multi-agent system, the tool
registry (cache and rate limiter), the working memory and the episodic memory.

Python dictionaries are modelled as insertion-ordered association lists
(matching CPython dict semantics: updates keep the key position, new keys are
appended, deletion removes the key).  Python floats (timestamps, importances)
are modelled as rationals.  Fallible Python code (a lookup that can raise
`KeyError` / `TypeError`) is modelled with `Except`.
-/

set_option linter.unusedVariables false

namespace PyDict

/-- `d[k]` as `Option`: first binding of the key, `none` when absent. -/
def pyGet [DecidableEq κ] : List (κ × β) → κ → Option β
  | [], _ => none
  | (k, v) :: rest, k0 => if k = k0 then some v else pyGet rest k0

/-- `d[k] = v`: update the key in place when present, else append it. -/
def pySet [DecidableEq κ] : List (κ × β) → κ → β → List (κ × β)
  | [], k0, v0 => [(k0, v0)]
  | (k, v) :: rest, k0, v0 =>
    if k = k0 then (k0, v0) :: rest else (k, v) :: pySet rest k0 v0

/-- `del d[k]`: drop every binding of the key. -/
def pyErase [DecidableEq κ] (l : List (κ × β)) (k0 : κ) : List (κ × β) :=
  l.filter (fun p => p.1 ≠ k0)

/-- `list(d.keys())` in insertion order. -/
def keys (l : List (κ × β)) : List κ := l.map Prod.fst

end PyDict

namespace TaskPlanning

/-- `TaskStatus` from `task_planning.py`. -/
inductive TPStatus
  | PENDING
  | IN_PROGRESS
  | COMPLETED
  | FAILED
  | BLOCKED
  | CANCELLED
  | DELEGATED
  deriving DecidableEq, Repr

/-- The fields of `task_planning.Task` that the task graph reads.  Priority,
type, timing/metadata fields and callbacks are carried by the Python object
but never inspected by `TaskGraph`, so they are omitted here. -/
structure TPTask where
  id : String
  name : String
  description : String
  status : TPStatus
  dependencies : List String
  parent_id : Option String
  deriving DecidableEq, Repr

/-- `TaskGraph` wraps a `networkx.DiGraph`.  A node is a key paired with its
attribute dictionary, here the optional `task` attribute: `add_edge` creates
missing endpoint nodes implicitly, and such nodes carry no `task` attribute
(`none`).  An edge records the optional `relationship="parent-child"` flag. -/
structure TaskGraph where
  nodes : List (String × Option TPTask)
  edges : List (String × String × Bool)
  deriving DecidableEq, Repr

def emptyGraph : TaskGraph := ⟨[], []⟩

/-- `graph.add_node(task.id, task=task)`: sets the attribute, keeping an
existing node in place. -/
def addNodeWithTask (g : TaskGraph) (t : TPTask) : TaskGraph :=
  { g with nodes := PyDict.pySet g.nodes t.id (some t) }

/-- `add_edge` endpoint creation: a missing endpoint becomes an
attribute-less node. -/
def ensureNode (g : TaskGraph) (i : String) : TaskGraph :=
  match PyDict.pyGet g.nodes i with
  | some _ => g
  | none => { g with nodes := g.nodes ++ [(i, none)] }

def hasEdge (g : TaskGraph) (u v : String) : Bool :=
  g.edges.any (fun e => e.1 == u && e.2.1 == v)

/-- `graph.add_edge(u, v)` with no attributes: existing edge data is kept. -/
def addEdgeDep (g : TaskGraph) (u v : String) : TaskGraph :=
  let g1 := ensureNode (ensureNode g u) v
  if hasEdge g1 u v then g1
  else { g1 with edges := g1.edges ++ [(u, v, false)] }

/-- `graph.add_edge(u, v, relationship="parent-child")`. -/
def addEdgePC (g : TaskGraph) (u v : String) : TaskGraph :=
  let g1 := ensureNode (ensureNode g u) v
  if hasEdge g1 u v then
    { g1 with edges :=
        g1.edges.map (fun e => if e.1 == u && e.2.1 == v then (u, v, true) else e) }
  else { g1 with edges := g1.edges ++ [(u, v, true)] }

/-- `TaskGraph.add_task`. -/
def add_task (g : TaskGraph) (t : TPTask) : TaskGraph :=
  let g1 := addNodeWithTask g t
  let g2 := t.dependencies.foldl (fun acc d => addEdgeDep acc d t.id) g1
  match t.parent_id with
  | some p => addEdgePC g2 p t.id
  | none => g2

/-- `TaskGraph.get_task`: `None` when the id is not a node; reading the
`task` attribute of an implicitly created node raises `KeyError`
(modelled as `Except.error`). -/
def get_task (g : TaskGraph) (i : String) : Except Unit (Option TPTask) :=
  match PyDict.pyGet g.nodes i with
  | none => .ok none
  | some none => .error ()
  | some (some t) => .ok (some t)

/-- `graph.predecessors(i)` in edge insertion order. -/
def preds (g : TaskGraph) (i : String) : List String :=
  (g.edges.filter (fun e => e.2.1 == i)).map (fun e => e.1)

/-- The `task` attribute of node `i`, when the node exists and has one. -/
def taskAt (g : TaskGraph) (i : String) : Option TPTask :=
  (PyDict.pyGet g.nodes i).bind (fun o => o)

/-- The loop body of `TaskGraph.get_dependencies`: look every predecessor up
and keep the non-`None` tasks. -/
def collectDeps (g : TaskGraph) : List String → Except Unit (List TPTask)
  | [] => .ok []
  | d :: rest => do
    let t? ← get_task g d
    let ts ← collectDeps g rest
    match t? with
    | some t => .ok (t :: ts)
    | none => .ok ts

/-- `TaskGraph.get_dependencies`. -/
def get_dependencies (g : TaskGraph) (i : String) : Except Unit (List TPTask) :=
  if (PyDict.pyGet g.nodes i).isNone then .ok []
  else collectDeps g (preds g i)

/-- The node loop of `TaskGraph.get_next_tasks`. -/
def nextAux (g : TaskGraph) : List (String × Option TPTask) → Except Unit (List TPTask)
  | [] => .ok []
  | (i, _) :: rest => do
    let t? ← get_task g i
    match t? with
    | some t =>
      if t.status = TPStatus.PENDING then do
        let deps ← get_dependencies g i
        let tail ← nextAux g rest
        if deps.all (fun d => decide (d.status = TPStatus.COMPLETED)) then
          .ok (t :: tail)
        else .ok tail
      else nextAux g rest
    | none => nextAux g rest

/-- `TaskGraph.get_next_tasks`. -/
def get_next_tasks (g : TaskGraph) : Except Unit (List TPTask) :=
  nextAux g g.nodes

/-- A graph in which every node carries a `task` attribute and node keys are
unique (as they are in a `networkx` graph). -/
def wellFormed (g : TaskGraph) : Prop :=
  (∀ p ∈ g.nodes, p.2.isSome = true) ∧ (g.nodes.map Prod.fst).Nodup

instance : DecidablePred wellFormed := fun g => by
  unfold wellFormed
  infer_instance

def nextSpecAt (g : TaskGraph) (i : String) : Option TPTask :=
  match taskAt g i with
  | some t =>
    if t.status = TPStatus.PENDING ∧
        ∀ d ∈ (preds g i).filterMap (taskAt g), d.status = TPStatus.COMPLETED
    then some t else none
  | none => none

/-- Concrete well-formed graph: completed task `a`, pending `b` depending
on `a`, pending `c` with no dependencies. -/
def c1WitnessGraph : TaskGraph :=
  add_task (add_task (add_task emptyGraph
    { id := "a", name := "A", description := "", status := TPStatus.COMPLETED,
      dependencies := [], parent_id := none })
    { id := "b", name := "B", description := "", status := TPStatus.PENDING,
      dependencies := ["a"], parent_id := none })
    { id := "c", name := "C", description := "", status := TPStatus.PENDING,
      dependencies := [], parent_id := none }

/-- A graph whose only added task depends on an id that was never added:
`add_task` then creates an attribute-less node for the dependency. -/
def c1DanglingGraph : TaskGraph :=
  add_task emptyGraph
    { id := "b", name := "B", description := "", status := TPStatus.PENDING,
      dependencies := ["a"], parent_id := none }

end TaskPlanning

namespace MAS

/-- `TaskStatus` from `multi_agent_system.py`. -/
inductive MASStatus
  | PENDING
  | ASSIGNED
  | IN_PROGRESS
  | COMPLETED
  | FAILED
  | BLOCKED
  | CANCELLED
  deriving DecidableEq, Repr

/-- `AgentRole` from `multi_agent_system.py`. -/
inductive AgentRole
  | COORDINATOR
  | ANALYST
  | EXECUTOR
  | CRITIC
  | RESEARCHER
  | PLANNER
  | SPECIALIST
  | ASSISTANT
  deriving DecidableEq, Repr

/-- `AgentCapability` from `multi_agent_system.py`. -/
inductive AgentCapability
  | SCRIPT_ANALYSIS
  | SECURITY_ANALYSIS
  | CODE_GENERATION
  | DOCUMENTATION
  | CATEGORIZATION
  | OPTIMIZATION
  | TOOL_USE
  | PLANNING
  | REASONING
  | LEARNING
  | COMMUNICATION
  | MEMORY_MANAGEMENT
  | VOICE_SYNTHESIS
  | VOICE_RECOGNITION
  deriving DecidableEq, Repr

/-- The fields of `multi_agent_system.Task` that assignment, completion and
blocking read.  Timestamps, result/error payloads, description, deadline and
context are never inspected by those code paths and are omitted. -/
structure MASTask where
  id : String
  name : String
  required_capabilities : List AgentCapability
  priority : Int
  parent_task_id : Option String
  dependencies : List String
  subtasks : List String
  status : MASStatus
  assigned_agent_id : Option String
  deriving DecidableEq, Repr

/-- The fields of `multi_agent_system.Agent` read by the system (the memory
system, api key, model and timestamps are never inspected by the claimed
code paths). -/
structure MASAgent where
  id : String
  name : String
  role : AgentRole
  capabilities : List AgentCapability
  current_task_id : Option String
  task_history : List String
  deriving DecidableEq, Repr

/-- The `agents` and `tasks` dictionaries of `MultiAgentSystem` (messages and
memory are not read by the claimed code paths).  Python mutates the shared
`Task`/`Agent` objects in place; since the system registers every object
under its own id, the embedding updates the dictionary entry keyed by that
id. -/
structure MASystem where
  agents : List (String × MASAgent)
  tasks : List (String × MASTask)
  deriving DecidableEq, Repr

/-- Python truthiness of an `Optional[str]`: `None` and `""` are falsy. -/
def optTruthy : Option String → Bool
  | none => false
  | some s => decide (s ≠ "")

/-- `Agent.can_handle_task`. -/
def can_handle_task (a : MASAgent) (t : MASTask) : Bool :=
  t.required_capabilities.all (fun c => decide (c ∈ a.capabilities))

/-- `Agent.is_available`. -/
def is_available (a : MASAgent) : Bool :=
  a.current_task_id.isNone

/-- The sort key of `_assign_task`: the number of required capabilities the
agent has. -/
def matchCount (a : MASAgent) (t : MASTask) : Nat :=
  (t.required_capabilities.filter (fun c => decide (c ∈ a.capabilities))).length

/-- `available_agents.sort(key=..., reverse=True)` is stable, so
`available_agents[0]` is the first agent attaining the maximal match
count. -/
def pickBest (t : MASTask) : List MASAgent → Option MASAgent
  | [] => none
  | a :: rest =>
    match pickBest t rest with
    | none => some a
    | some b => if matchCount b t > matchCount a t then some b else some a

/-- The dependency scan of `_assign_task`: the first dependency that is
present in `self.tasks` with a status other than `COMPLETED`. -/
def findBlockingDep (s : MASystem) (t : MASTask) : Option String :=
  t.dependencies.find? (fun d =>
    match PyDict.pyGet s.tasks d with
    | some dt => decide (dt.status ≠ MASStatus.COMPLETED)
    | none => false)

/-- `MultiAgentSystem._assign_task`. -/
def assignTask (s : MASystem) (task_id : String) : MASystem × Bool :=
  match PyDict.pyGet s.tasks task_id with
  | none => (s, false)
  | some t =>
    if optTruthy t.assigned_agent_id then (s, false)
    else if (findBlockingDep s t).isSome then
      let t' := { t with status := MASStatus.BLOCKED }
      ({ s with tasks := PyDict.pySet s.tasks task_id t' }, false)
    else
      let avail := (s.agents.map Prod.snd).filter
        (fun a => is_available a && can_handle_task a t)
      match pickBest t avail with
      | none => (s, false)
      | some best =>
        let best' := { best with current_task_id := some t.id }
        let t' := { t with assigned_agent_id := some best.id,
                           status := MASStatus.ASSIGNED }
        ({ s with agents := PyDict.pySet s.agents best.id best',
                  tasks := PyDict.pySet s.tasks task_id t' }, true)

/-- The dependency check of `_check_blocked_tasks` against the current
task dictionary. -/
def depsCompleted (tasks : List (String × MASTask)) (b : MASTask) : Bool :=
  b.dependencies.all (fun d =>
    match PyDict.pyGet tasks d with
    | some dt => decide (dt.status = MASStatus.COMPLETED)
    | none => true)

/-- One iteration of the `_check_blocked_tasks` loop: if every dependency of
the blocked task that is present is completed, set the task back to
`PENDING` and retry assignment. -/
def pbStep (s : MASystem) (bid : String) : MASystem :=
  match PyDict.pyGet s.tasks bid with
  | none => s
  | some b =>
    if depsCompleted s.tasks b then
      (assignTask
        { s with
          tasks := PyDict.pySet s.tasks bid ({ b with status := MASStatus.PENDING }) }
        bid).1
    else s

/-- The loop of `_check_blocked_tasks` over the snapshot of blocked task
ids. -/
def processBlocked (s : MASystem) (ids : List String) : MASystem :=
  ids.foldl pbStep s

/-- The snapshot of blocked task ids taken at the top of
`_check_blocked_tasks`. -/
def blockedIds (tasks : List (String × MASTask)) : List String :=
  (tasks.filter (fun p => decide (p.2.status = MASStatus.BLOCKED))).map Prod.fst

/-- `MultiAgentSystem._check_blocked_tasks`. -/
def checkBlockedTasks (s : MASystem) : MASystem :=
  processBlocked s (blockedIds s.tasks)

/-- `MultiAgentSystem.complete_task` (the task result payload is not
modelled; it is stored but never read by the claimed code paths). -/
def completeTask (s : MASystem) (task_id : String) : MASystem × Bool :=
  match PyDict.pyGet s.tasks task_id with
  | none => (s, false)
  | some t =>
    if ¬ optTruthy t.assigned_agent_id then (s, false)
    else
      let aid := t.assigned_agent_id.getD ""
      match PyDict.pyGet s.agents aid with
      | none => (s, false)
      | some ag =>
        let ag' := { ag with task_history := ag.task_history ++ [t.id],
                             current_task_id := none }
        let t' := { t with status := MASStatus.COMPLETED }
        let s1 : MASystem :=
          { agents := PyDict.pySet s.agents aid ag',
            tasks := PyDict.pySet s.tasks task_id t' }
        (checkBlockedTasks s1, true)

/-- `MultiAgentSystem.remove_agent`. -/
def removeAgent (s : MASystem) (agent_id : String) : MASystem × Bool :=
  match PyDict.pyGet s.agents agent_id with
  | none => (s, false)
  | some a =>
    if a.role = AgentRole.COORDINATOR then (s, false)
    else
      let s1 : MASystem :=
        if optTruthy a.current_task_id then
          match PyDict.pyGet s.tasks (a.current_task_id.getD "") with
          | some t =>
            let t' := { t with status := MASStatus.CANCELLED }
            { s with tasks :=
                PyDict.pySet s.tasks (a.current_task_id.getD "") t' }
          | none => s
        else s
      ({ s1 with agents := PyDict.pyErase s1.agents agent_id }, true)

/-- The coordinator agent of a small concrete system (capabilities as in
`_create_coordinator_agent`). -/
def c9Coord : MASAgent :=
  { id := "a1", name := "Coordinator", role := AgentRole.COORDINATOR,
    capabilities := [AgentCapability.PLANNING, AgentCapability.REASONING,
      AgentCapability.COMMUNICATION, AgentCapability.MEMORY_MANAGEMENT],
    current_task_id := none, task_history := [] }

/-- A non-coordinator agent currently working on task `t1`. -/
def c9Agent : MASAgent :=
  { id := "a2", name := "Analyst", role := AgentRole.ANALYST,
    capabilities := [AgentCapability.SCRIPT_ANALYSIS],
    current_task_id := some "t1", task_history := [] }

/-- The in-progress task assigned to `a2`. -/
def c9Task : MASTask :=
  { id := "t1", name := "T1",
    required_capabilities := [AgentCapability.SCRIPT_ANALYSIS],
    priority := 1, parent_task_id := none, dependencies := [], subtasks := [],
    status := MASStatus.IN_PROGRESS, assigned_agent_id := some "a2" }

/-- A concrete two-agent system with one in-progress task. -/
def c9System : MASystem :=
  { agents := [("a1", c9Coord), ("a2", c9Agent)], tasks := [("t1", c9Task)] }

/-- An in-progress dependency task, assigned to agent `a1`. -/
def c2DepTask : MASTask :=
  { id := "t1", name := "Dep", required_capabilities := [], priority := 1,
    parent_task_id := none, dependencies := [], subtasks := [],
    status := MASStatus.IN_PROGRESS, assigned_agent_id := some "a1" }

/-- An unassigned task blocked on `t1`. -/
def c2BlockedTask : MASTask :=
  { id := "t2", name := "Blocked", required_capabilities := [], priority := 1,
    parent_task_id := none, dependencies := ["t1"], subtasks := [],
    status := MASStatus.BLOCKED, assigned_agent_id := none }

/-- The agent working on `t1`. -/
def c2Worker : MASAgent :=
  { id := "a1", name := "W", role := AgentRole.EXECUTOR, capabilities := [],
    current_task_id := some "t1", task_history := [] }

/-- A concrete system with a blocked task whose only dependency is still in
progress. -/
def c2System : MASystem :=
  { agents := [("a1", c2Worker)],
    tasks := [("t1", c2DepTask), ("t2", c2BlockedTask)] }

end MAS


namespace TI

/-- Python values passed to and returned from tools (the scalar JSON types;
the claims only need these). -/
inductive Val
  | vnone
  | vbool (b : Bool)
  | vint (n : Int)
  | vstr (s : String)
  deriving DecidableEq, Repr

/-- Python truthiness of a value (`if cached_result:`). -/
def valTruthy : Val → Bool
  | .vnone => false
  | .vbool b => b
  | .vint n => decide (n ≠ 0)
  | .vstr s => decide (s ≠ "")

instance argLeDec : DecidableRel (fun p q : String × Val => p.1 ≤ q.1) :=
  fun p q => inferInstanceAs (Decidable (p.1 ≤ q.1))

/-- `json.dumps(args, sort_keys=True)`: the argument dictionary in key
order.  `ToolCache._generate_key` then hashes `f"{name}:{json}"` with md5;
the hash is modelled as the (collision-free) pair of name and sorted
arguments. -/
def canonArgs (args : List (String × Val)) : List (String × Val) :=
  List.insertionSort (fun p q => p.1 ≤ q.1) args

abbrev CacheKey := String × List (String × Val)

def cacheKey (tool_name : String) (args : List (String × Val)) : CacheKey :=
  (tool_name, canonArgs args)

/-- One stored cache item (`result`, `timestamp`, `expiry`; the redundant
`tool_name`/`args` copies are omitted since they are never read). -/
structure CacheEntry where
  result : Val
  timestamp : ℚ
  expiry : Option ℚ
  deriving DecidableEq, Repr

/-- The fields of `ToolDefinition` read by `execute_tool`.  The description,
schemas, category, permissions, tags, examples and timing metadata are never
inspected on the claimed code paths.  The Python callable is modelled as a
pure function from the argument dictionary to a result or a raised
exception (its message). -/
structure ToolDef where
  name : String
  func : List (String × Val) → Except String Val
  cache_ttl : Option ℚ
  rate_limit : Option Int
  requires_api_key : Bool
  api_key_env_var : Option String
  call_count : Nat

/-- `ToolRegistry` state: the tools map, the `ToolCache` (entries plus its
`max_size`), and the `RateLimiter.call_history`. -/
structure ToolRegistry where
  tools : List (String × ToolDef)
  cache : List (CacheKey × CacheEntry)
  max_size : Nat
  rl : List (String × List ℚ)

/-- The `ToolResult` dictionary (without `execution_time` and `metadata`,
which hold wall-clock timings and statistics only). A missing `result` key
is `none`. -/
structure ToolResult where
  success : Bool
  result : Option Val
  error : Option String
  cached : Bool
  deriving DecidableEq, Repr

/-- A failure result as built by `execute_tool`. -/
def failRes (e : String) : ToolResult :=
  { success := false, result := none, error := some e, cached := false }

/-- `ToolCache.get`: a miss when absent; an expired entry is deleted and
missed; `expiry is None` makes `cached_item["expiry"] < time.time()` raise
`TypeError` (such entries are never created through `execute_tool`, which
always passes a non-`None` ttl to `set`). -/
def cacheGet (cache : List (CacheKey × CacheEntry)) (tool_name : String)
    (args : List (String × Val)) (now : ℚ) :
    Except String (List (CacheKey × CacheEntry) × Option Val) :=
  match PyDict.pyGet cache (cacheKey tool_name args) with
  | none => .ok (cache, none)
  | some item =>
    match item.expiry with
    | some e =>
      if e < now then .ok (PyDict.pyErase cache (cacheKey tool_name args), none)
      else .ok (cache, some item.result)
    | none => .error "TypeError: NoneType and float comparison"

/-- The first cache pair attaining the minimal timestamp (Python
`min(cache.keys(), key=...)` keeps the earliest minimum). -/
def oldestPair : List (CacheKey × CacheEntry) → Option (CacheKey × CacheEntry)
  | [] => none
  | p :: rest =>
    match oldestPair rest with
    | none => some p
    | some q => if q.2.timestamp < p.2.timestamp then some q else some p

/-- `ToolCache.set`: store the entry, then evict the oldest item when the
cache exceeds `max_size`. -/
def cacheSet (cache : List (CacheKey × CacheEntry)) (max_size : Nat)
    (tool_name : String) (args : List (String × Val)) (result : Val)
    (ttl : Option ℚ) (now : ℚ) : List (CacheKey × CacheEntry) :=
  let entry : CacheEntry :=
    { result := result, timestamp := now, expiry := ttl.map (fun t => now + t) }
  let c1 := PyDict.pySet cache (cacheKey tool_name args) entry
  if c1.length > max_size then
    match oldestPair c1 with
    | some p => PyDict.pyErase c1 p.1
    | none => c1
  else c1

/-- Calls within the last 60 seconds (strictly, `now - t < 60`). -/
def rlRecent (hist : List ℚ) (now : ℚ) : List ℚ :=
  hist.filter (fun t => decide (now - t < 60))

/-- `RateLimiter.check_rate_limit`: ensures the key, prunes entries older
than one minute and compares against the limit. -/
def checkRateLimit (rl : List (String × List ℚ)) (tool_name : String)
    (limit : Int) (now : ℚ) : List (String × List ℚ) × Bool :=
  let recent := rlRecent ((PyDict.pyGet rl tool_name).getD []) now
  (PyDict.pySet rl tool_name recent, decide ((recent.length : Int) < limit))

/-- `RateLimiter.record_call`. -/
def recordCall (rl : List (String × List ℚ)) (tool_name : String) (now : ℚ) :
    List (String × List ℚ) :=
  PyDict.pySet rl tool_name (((PyDict.pyGet rl tool_name).getD []) ++ [now])

/-- The api-key resolution of `execute_tool`: when the tool requires a key
and the passed one is falsy, fall back to the environment variable (when
that name is truthy). -/
def resolveApiKey (tool : ToolDef) (apiKey : Option String)
    (env : List (String × String)) : Option String :=
  if tool.requires_api_key ∧ MAS.optTruthy apiKey = false then
    match tool.api_key_env_var with
    | some v => if v ≠ "" then PyDict.pyGet env v else apiKey
    | none => apiKey
  else apiKey

/-- `args["api_key"] = api_key` when the tool requires a key and one is
available (this mutates the argument dictionary before the call and before
the result is cached). -/
def effArgs (tool : ToolDef) (key : Option String)
    (args : List (String × Val)) : List (String × Val) :=
  if tool.requires_api_key ∧ MAS.optTruthy key = true then
    PyDict.pySet args "api_key" (Val.vstr (key.getD ""))
  else args

/-- The rate-limit phase of `execute_tool`: `if tool.rate_limit and not
self.rate_limiter.check_rate_limit(...)` — skipped entirely when
`rate_limit` is falsy (`None` or `0`). -/
def ratePhase (r : ToolRegistry) (tool : ToolDef) (tool_name : String)
    (now : ℚ) : ToolRegistry × Bool :=
  match tool.rate_limit with
  | none => (r, true)
  | some n =>
    if n = 0 then (r, true)
    else
      let p := checkRateLimit r.rl tool_name n now
      ({ r with rl := p.1 }, p.2)

/-- The `try` block of `execute_tool`: run the function; on success bump
`call_count`, record the call for rate limiting and fill the cache; an
exception becomes a failure result with the exception text. -/
def execPhase (r : ToolRegistry) (tool : ToolDef) (tool_name : String)
    (args : List (String × Val)) (key : Option String) (use_cache : Bool)
    (now : ℚ) : ToolRegistry × ToolResult :=
  match tool.func (effArgs tool key args) with
  | .ok v =>
    ({ r with
        tools := PyDict.pySet r.tools tool_name ({ tool with call_count := tool.call_count + 1 }),
        rl := recordCall r.rl tool_name now,
        cache :=
          if use_cache ∧ tool.cache_ttl ≠ none then
            cacheSet r.cache r.max_size tool_name (effArgs tool key args) v tool.cache_ttl now
          else r.cache },
     { success := true, result := some v, error := none, cached := false })
  | .error e =>
    (r, { success := false, result := none, error := some e, cached := false })

/-- The continuation of `execute_tool` after the cache lookup: `if
cached_result:` returns the cached value (Python truthiness!), otherwise
the tool is executed. -/
def cacheCont (r2 : ToolRegistry) (tool : ToolDef) (tool_name : String)
    (args : List (String × Val)) (key : Option String) (use_cache : Bool)
    (now : ℚ) : Option Val → ToolRegistry × ToolResult
  | some v =>
    if valTruthy v then
      (r2, { success := true, result := some v, error := none, cached := true })
    else execPhase r2 tool tool_name args key use_cache now
  | none => execPhase r2 tool tool_name args key use_cache now

/-- `ToolRegistry.execute_tool`.  The Python error strings quote the tool
name with single quotes; the quotes are omitted here.  The only way this
function itself raises is the `TypeError` of `ToolCache.get` on a poisoned
entry, which happens outside the `try` block. -/
def executeTool (r : ToolRegistry) (tool_name : String)
    (args : List (String × Val)) (use_cache : Bool) (apiKey : Option String)
    (env : List (String × String)) (now : ℚ) :
    Except String (ToolRegistry × ToolResult) :=
  match PyDict.pyGet r.tools tool_name with
  | none => .ok (r, failRes ("Tool " ++ tool_name ++ " not found"))
  | some tool =>
    if tool.requires_api_key ∧ MAS.optTruthy (resolveApiKey tool apiKey env) = false then
      .ok (r, failRes ("Tool " ++ tool_name ++ " requires an API key"))
    else
      if (ratePhase r tool tool_name now).2 = false then
        .ok ((ratePhase r tool tool_name now).1,
          failRes ("Rate limit exceeded for tool " ++ tool_name))
      else if use_cache ∧ tool.cache_ttl ≠ none then
        match cacheGet (ratePhase r tool tool_name now).1.cache tool_name args now with
        | .error e => .error e
        | .ok (cache2, v?) =>
          .ok (cacheCont { (ratePhase r tool tool_name now).1 with cache := cache2 }
            tool tool_name args (resolveApiKey tool apiKey env) use_cache now v?)
      else .ok (execPhase (ratePhase r tool tool_name now).1 tool tool_name args
        (resolveApiKey tool apiKey env) use_cache now)

/-- The result component of an `execute_tool` run, `none` when it raised. -/
def resOf (x : Except String (ToolRegistry × ToolResult)) : Option ToolResult :=
  match x with
  | .ok p => some p.2
  | .error _ => none

/-- The registry component of an `execute_tool` run. -/
def regOf (x : Except String (ToolRegistry × ToolResult)) (dflt : ToolRegistry) :
    ToolRegistry :=
  match x with
  | .ok p => p.1
  | .error _ => dflt

/-- A tool whose function always raises. -/
def c5Tool : ToolDef :=
  { name := "boom", func := fun _ => .error "kaput", cache_ttl := none,
    rate_limit := none, requires_api_key := false, api_key_env_var := none,
    call_count := 0 }

/-- A fresh registry holding only `c5Tool`. -/
def c5Reg : ToolRegistry :=
  { tools := [("boom", c5Tool)], cache := [], max_size := 1000, rl := [] }

/-- A tool registered with `rate_limit=0`: Python treats `0` as falsy and
skips the rate check entirely. -/
def c3ZeroTool : ToolDef :=
  { name := "z", func := fun _ => .ok (Val.vint 1), cache_ttl := none,
    rate_limit := some 0, requires_api_key := false, api_key_env_var := none,
    call_count := 0 }

def c3ZeroReg : ToolRegistry :=
  { tools := [("z", c3ZeroTool)], cache := [], max_size := 1000, rl := [] }

/-- A tool that requires an api key and has `rate_limit=1`. -/
def c3KeyTool : ToolDef :=
  { name := "k", func := fun _ => .ok (Val.vint 1), cache_ttl := none,
    rate_limit := some 1, requires_api_key := true, api_key_env_var := none,
    call_count := 0 }

/-- Registry for `c3KeyTool` with three recorded recent calls. -/
def c3KeyReg : ToolRegistry :=
  { tools := [("k", c3KeyTool)], cache := [], max_size := 1000,
    rl := [("k", [0, 0, 0])] }

/-- A tool whose own function raises with exactly the rate-limit text. -/
def c3MsgTool : ToolDef :=
  { name := "m", func := fun _ => .error "Rate limit exceeded for tool m",
    cache_ttl := none, rate_limit := some 5, requires_api_key := false,
    api_key_env_var := none, call_count := 0 }

def c3MsgReg : ToolRegistry :=
  { tools := [("m", c3MsgTool)], cache := [], max_size := 1000, rl := [] }

/-- A tool with `rate_limit=2` for the C3 witness. -/
def c3WTool : ToolDef :=
  { name := "w", func := fun _ => .ok (Val.vint 3), cache_ttl := none,
    rate_limit := some 2, requires_api_key := false, api_key_env_var := none,
    call_count := 0 }

/-- Registry for `c3WTool` with one recorded recent call. -/
def c3WReg : ToolRegistry :=
  { tools := [("w", c3WTool)], cache := [], max_size := 1000,
    rl := [("w", [0])] }

/-- A tool with a 60-second cache TTL and a truthy result. -/
def c4WTool : ToolDef :=
  { name := "cw", func := fun _ => .ok (Val.vint 7), cache_ttl := some 60,
    rate_limit := none, requires_api_key := false, api_key_env_var := none,
    call_count := 0 }

def c4WReg : ToolRegistry :=
  { tools := [("cw", c4WTool)], cache := [], max_size := 1000, rl := [] }

/-- A cached tool returning the falsy value `0`. -/
def c4FalsyTool : ToolDef :=
  { name := "f0", func := fun _ => .ok (Val.vint 0), cache_ttl := some 60,
    rate_limit := none, requires_api_key := false, api_key_env_var := none,
    call_count := 0 }

def c4FalsyReg : ToolRegistry :=
  { tools := [("f0", c4FalsyTool)], cache := [], max_size := 1000, rl := [] }

/-- A cached tool with `rate_limit=1`. -/
def c4RateTool : ToolDef :=
  { name := "g", func := fun _ => .ok (Val.vint 7), cache_ttl := some 60,
    rate_limit := some 1, requires_api_key := false, api_key_env_var := none,
    call_count := 0 }

def c4RateReg : ToolRegistry :=
  { tools := [("g", c4RateTool)], cache := [], max_size := 1000, rl := [] }

/-- A cached tool that requires an api key. -/
def c4KeyTool : ToolDef :=
  { name := "h", func := fun _ => .ok (Val.vint 5), cache_ttl := some 60,
    rate_limit := none, requires_api_key := true, api_key_env_var := none,
    call_count := 0 }

def c4KeyReg : ToolRegistry :=
  { tools := [("h", c4KeyTool)], cache := [], max_size := 1000, rl := [] }

end TI

namespace WM

/-- The fields of `enhanced_memory.MemoryEntry`.  The Python `id` field is a
function of the other construction-time fields (see `entryId`), so it is not
stored separately. -/
structure MemoryEntry where
  content : String
  memory_type : String
  source : String
  importance : ℚ
  timestamp : ℚ
  last_accessed : ℚ
  access_count : Nat
  deriving DecidableEq, Repr

/-- The id of a memory entry.  `MemoryEntry._generate_id` md5-hashes the
string `f"{content}_{timestamp}_{memory_type}_{source}"`; the hash is modelled
as collision-free, so the id is represented by the tuple of hash inputs
itself, which the real id determines injectively (up to md5 collisions). -/
abbrev MemId := String × ℚ × String × String

/-- See `MemId`: the modelled `entry.id`. -/
def entryId (e : MemoryEntry) : MemId :=
  (e.content, e.timestamp, e.memory_type, e.source)

/-- One element of `WorkingMemory.priority_queue`: a `(priority, memory_id)`
pair. -/
abbrev PQItem := ℚ × MemId

/-- The sort key under which Python compares `(priority, memory_id)` tuples:
lexicographic, priority first.  Python breaks priority ties by comparing the
md5 hex ids; the model breaks them by comparing the id tuples
lexicographically.  Both are total orders on ids, and no verified property
depends on the relative order of two distinct ids with equal priority. -/
def pqKey (x : PQItem) : Lex (ℚ × Lex (String × Lex (ℚ × Lex (String × String)))) :=
  toLex (x.1, toLex (x.2.1, toLex (x.2.2.1, toLex (x.2.2.2.1, x.2.2.2.2))))

/-- Descending comparison on queue items: `a` sorts no later than `b` after
`sort(reverse=True)`. -/
def pqGe (a b : PQItem) : Prop := pqKey b ≤ pqKey a

instance : DecidableRel pqGe :=
  fun a b => inferInstanceAs (Decidable (pqKey b ≤ pqKey a))

instance : IsTotal PQItem pqGe := ⟨fun a b => le_total (pqKey b) (pqKey a)⟩

instance : IsTrans PQItem pqGe := ⟨fun _ _ _ hab hbc => le_trans hbc hab⟩

/-- `self.priority_queue.sort(reverse=True)` (Python sort is stable, as is
insertion sort). -/
def sortDesc (l : List PQItem) : List PQItem := List.insertionSort pqGe l

/-- The state of `enhanced_memory.WorkingMemory`. -/
structure WorkingMemory where
  capacity : Nat
  memories : List (MemId × MemoryEntry)
  priority_queue : List PQItem
  deriving DecidableEq, Repr

/-- `WorkingMemory.__init__`. -/
def mkWM (capacity : Nat) : WorkingMemory := ⟨capacity, [], []⟩

/-- `WorkingMemory._calculate_priority` at current time `now`:
`0.5 * importance + 0.3 * max(0, 1 - (now - timestamp) / (24*60*60))
 + 0.2 * min(1, access_count / 10)`. -/
def calcPriority (e : MemoryEntry) (now : ℚ) : ℚ :=
  (0.5 * e.importance) + (0.3 * max 0 (1 - ((now - e.timestamp) / (24 * 60 * 60)))) +
    (0.2 * min 1 ((e.access_count : ℚ) / 10))

/-- `MemoryEntry.__init__` with `timestamp=None`, so both timestamps are the
creation time and the access count starts at zero. -/
def mkEntry (content memory_type source : String) (importance now : ℚ) : MemoryEntry :=
  ⟨content, memory_type, source, importance, now, now, 0⟩

/-- `WorkingMemory.add` up to (but not including) the capacity check: store
the entry, append its priority to the queue and re-sort descending.  All
`time.time()` readings during one call are modelled as the single instant
`now`. -/
def addNoCap (wm : WorkingMemory) (content memory_type source : String)
    (importance now : ℚ) : WorkingMemory × MemId :=
  let e := mkEntry content memory_type source importance now
  let i := entryId e
  (⟨wm.capacity, PyDict.pySet wm.memories i e,
    sortDesc (wm.priority_queue ++ [(calcPriority e now, i)])⟩, i)

/-- `WorkingMemory._evict_lowest_priority`: pop the last queue pair and, if
its id is a stored key, delete that key from `memories`. -/
def evictLowestPriority (wm : WorkingMemory) : WorkingMemory :=
  match wm.priority_queue.getLast? with
  | none => wm
  | some x =>
    ⟨wm.capacity,
     if (PyDict.pyGet wm.memories x.2).isSome then PyDict.pyErase wm.memories x.2
     else wm.memories,
     wm.priority_queue.dropLast⟩

/-- `WorkingMemory.add`: `addNoCap` followed by the capacity check
`if len(self.memories) > self.capacity: self._evict_lowest_priority()`. -/
def add (wm : WorkingMemory) (content memory_type source : String)
    (importance now : ℚ) : WorkingMemory × MemId :=
  let r := addNoCap wm content memory_type source importance now
  (if r.1.memories.length > wm.capacity then evictLowestPriority r.1 else r.1, r.2)

/-- `WorkingMemory.get` at instant `now`: on a hit, bump
`last_accessed`/`access_count`, rebuild the priority pair of that id
(`_update_priority`: filter the id out, append the fresh pair, re-sort) and
return the content. -/
def get (wm : WorkingMemory) (i : MemId) (now : ℚ) : WorkingMemory × Option String :=
  match PyDict.pyGet wm.memories i with
  | none => (wm, none)
  | some e =>
    let e1 : MemoryEntry := ⟨e.content, e.memory_type, e.source, e.importance,
      e.timestamp, now, e.access_count + 1⟩
    (⟨wm.capacity, PyDict.pySet wm.memories i e1,
      sortDesc ((wm.priority_queue.filter (fun x => x.2 ≠ i)) ++
        [(calcPriority e1 now, i)])⟩, some e1.content)

/-- The filter `memory_type is None or entry.memory_type == memory_type` of
`WorkingMemory.get_all`. -/
def typeMatches (memory_type : Option String) (e : MemoryEntry) : Bool :=
  match memory_type with
  | none => true
  | some t => e.memory_type = t

/-- The access loop of `WorkingMemory.get_all`: every matching entry gets
`entry.access()` applied at instant `now`. -/
def accessAll (memory_type : Option String) (now : ℚ)
    (l : List (MemId × MemoryEntry)) : List (MemId × MemoryEntry) :=
  l.map (fun p =>
    if typeMatches memory_type p.2 then
      (p.1, ⟨p.2.content, p.2.memory_type, p.2.source, p.2.importance,
        p.2.timestamp, now, p.2.access_count + 1⟩)
    else p)

/-- `WorkingMemory.get_all` at instant `now`: collect matching contents in
insertion order, access each matching entry, then `_update_all_priorities`
(rebuild the whole queue from `memories` and sort descending). -/
def get_all (wm : WorkingMemory) (memory_type : Option String) (now : ℚ) :
    WorkingMemory × List String :=
  let mems := accessAll memory_type now wm.memories
  (⟨wm.capacity, mems, sortDesc (mems.map (fun p => (calcPriority p.2 now, p.1)))⟩,
   ((wm.memories.filter (fun p => typeMatches memory_type p.2)).map (fun p => p.2.content)))

/-- `WorkingMemory.remove`: delete the key and filter its pairs out of the
queue, returning whether the key was present. -/
def remove (wm : WorkingMemory) (i : MemId) : WorkingMemory × Bool :=
  if (PyDict.pyGet wm.memories i).isSome then
    (⟨wm.capacity, PyDict.pyErase wm.memories i,
      wm.priority_queue.filter (fun x => x.2 ≠ i)⟩, true)
  else (wm, false)

/-- `WorkingMemory.clear`. -/
def clear (wm : WorkingMemory) : WorkingMemory := ⟨wm.capacity, [], []⟩

/-- The priority-queue/memories invariant claimed by the specification: the
queue is sorted under the full Python sort order and hence in non-increasing
priority order, and its ids are exactly the stored keys, one pair per key. -/
def wmInv (wm : WorkingMemory) : Prop :=
  wm.priority_queue.Sorted pqGe ∧
  wm.priority_queue.Sorted (fun a b : PQItem => b.1 ≤ a.1) ∧
  (wm.priority_queue.map Prod.snd).Perm (wm.memories.map Prod.fst) ∧
  (wm.memories.map Prod.fst).Nodup

/-- Capacity-1 working memory driven over four adds: `"a"` twice with
importance `0.5` (the second add duplicates the queue pair of the same id),
then `"b"` and `"c"` with importance `0.9`.  The third add evicts `"a"`; the
fourth pops the stale duplicate pair of `"a"`, which is no longer a stored
key, so nothing is deleted and two entries remain in a capacity-1 store. -/
def c6S : WorkingMemory :=
  (add (add (add (add (mkWM 1) "a" "general" "agent" 0.5 0).1
    "a" "general" "agent" 0.5 0).1 "b" "general" "agent" 0.9 0).1
    "c" "general" "agent" 0.9 0).1

/-- Adding the same content/type/source at the same instant twice: the dict
write is idempotent but the queue append is not. -/
def c7S : WorkingMemory :=
  (add (add (mkWM 50) "a" "general" "agent" 0.5 0).1 "a" "general" "agent" 0.5 0).1

end WM

namespace EM

/-- One event dictionary stored by `EpisodicMemory.add_event` (the `metadata`
field is never read by the verified paths and is omitted). -/
structure EventRec where
  id : String
  event_type : String
  content : String
  timestamp : ℚ
  deriving DecidableEq, Repr

/-- One episode dictionary as built by `EpisodicMemory.start_episode`.  The
stored `id` string duplicates the dict key and is carried by the key instead
(see `EpisodicMemory`). -/
structure Episode where
  name : String
  start_time : ℚ
  end_time : Option ℚ
  events : List EventRec
  deriving DecidableEq, Repr

/-- The state of `enhanced_memory.EpisodicMemory`.  Python keys episodes by
`f"episode_{int(t)}_{hash(str(t))}"`, a function of the creation timestamp
`t`; the hash is modelled as collision-free, so the key is represented by the
timestamp itself, which the real key determines injectively. -/
structure EpisodicMemory where
  max_episodes : Nat
  episodes : List (ℚ × Episode)
  current_episode : Option ℚ
  deriving DecidableEq, Repr

/-- `EpisodicMemory.__init__`. -/
def mkEM (max_episodes : Nat) : EpisodicMemory := ⟨max_episodes, [], none⟩

/-- The event id `f"event_{int(t)}_{hash(str(t))}"`, a function of the event
timestamp; modelled injectively. -/
def eventIdOf (t : ℚ) : String := "event_" ++ toString t

/-- Python `name or default`: `None` and the empty string both fall back. -/
def nameOr (name : Option String) (d : String) : String :=
  match name with
  | some s => if s = "" then d else s
  | none => d

/-- `min(self.episodes.keys(), key=lambda eid: ...start_time)`: the first
key (in insertion order) whose episode has minimal start time, with its
episode. -/
def oldestEpisode : List (ℚ × Episode) → Option (ℚ × Episode)
  | [] => none
  | p :: rest =>
    match oldestEpisode rest with
    | none => some p
    | some q => if q.2.start_time < p.2.start_time then some q else some p

/-- `EpisodicMemory._remove_oldest_episode`. -/
def removeOldestEpisode (m : EpisodicMemory) : EpisodicMemory :=
  match oldestEpisode m.episodes with
  | none => m
  | some p => ⟨m.max_episodes, PyDict.pyErase m.episodes p.1, m.current_episode⟩

/-- `EpisodicMemory.start_episode` at instant `now`: insert the fresh episode,
make it current, then prune the oldest episode if the store exceeds
`max_episodes`. -/
def start_episode (m : EpisodicMemory) (name : Option String) (now : ℚ) :
    EpisodicMemory × ℚ :=
  let ep : Episode := ⟨nameOr name ("Episode " ++ toString (m.episodes.length + 1)),
    now, none, []⟩
  let m1 : EpisodicMemory := ⟨m.max_episodes, PyDict.pySet m.episodes now ep, some now⟩
  (if m1.episodes.length > m.max_episodes then removeOldestEpisode m1 else m1, now)

/-- `EpisodicMemory.add_event` at instant `now`: default the episode id to
the current episode, auto-starting a new episode when there is none; then, if
that episode id is a stored key, append the event and return its id, else
return the empty string. -/
def add_event (m : EpisodicMemory) (event_type : String) (content : String)
    (episode_id : Option ℚ) (now : ℚ) : EpisodicMemory × String :=
  let eid0 := match episode_id with | some i => some i | none => m.current_episode
  let r := match eid0 with
    | none => start_episode m none now
    | some i => (m, i)
  match PyDict.pyGet r.1.episodes r.2 with
  | some ep =>
    (⟨r.1.max_episodes,
      PyDict.pySet r.1.episodes r.2
        ⟨ep.name, ep.start_time, ep.end_time,
          ep.events ++ [⟨eventIdOf now, event_type, content, now⟩]⟩,
      r.1.current_episode⟩, eventIdOf now)
  | none => (r.1, "")

end EM

/-! ## Theorems -/

namespace PyDict

theorem pyGet_mem [DecidableEq κ] {l : List (κ × β)} {k : κ} {v : β}
    (h : pyGet l k = some v) : (k, v) ∈ l := by
  induction l with
  | nil => simp [pyGet] at h
  | cons p rest ih =>
    obtain ⟨k', v'⟩ := p
    by_cases hk : k' = k
    · subst hk
      simp [pyGet] at h
      simp [h]
    · simp [pyGet, hk] at h
      exact List.mem_cons_of_mem _ (ih h)

theorem pyGet_eq_none [DecidableEq κ] {l : List (κ × β)} {k : κ}
    (h : pyGet l k = none) : ∀ v, (k, v) ∉ l := by
  intro v hv
  induction l with
  | nil => simp at hv
  | cons p rest ih =>
    obtain ⟨k', v'⟩ := p
    by_cases hk : k' = k
    · subst hk; simp [pyGet] at h
    · simp [pyGet, hk] at h
      rcases List.mem_cons.mp hv with heq | hmem
      · exact hk (congrArg Prod.fst heq).symm
      · exact ih h hmem

theorem pyGet_pySet_self [DecidableEq κ] (l : List (κ × β)) (k0 : κ) (v0 : β) :
    pyGet (pySet l k0 v0) k0 = some v0 := by
  induction l with
  | nil => simp [pySet, pyGet]
  | cons p rest ih =>
    obtain ⟨k, v⟩ := p
    by_cases hk : k = k0
    · simp [pySet, hk, pyGet]
    · simp [pySet, hk, pyGet, ih]

theorem pyGet_pySet_ne [DecidableEq κ] {l : List (κ × β)} {k0 k1 : κ} (v0 : β)
    (h : k1 ≠ k0) : pyGet (pySet l k0 v0) k1 = pyGet l k1 := by
  induction l with
  | nil => simp [pySet, pyGet, Ne.symm h]
  | cons p rest ih =>
    obtain ⟨k, v⟩ := p
    by_cases hk : k = k0
    · subst hk
      simp [pySet, pyGet, Ne.symm h]
    · simp [pySet, hk, pyGet, ih]

theorem pyGet_pyErase_self [DecidableEq κ] (l : List (κ × β)) (k0 : κ) :
    pyGet (pyErase l k0) k0 = none := by
  induction l with
  | nil => rfl
  | cons p rest ih =>
    obtain ⟨k, v⟩ := p
    by_cases hk : k = k0
    · simpa [pyErase, hk] using ih
    · simpa [pyErase, pyGet, hk] using ih

theorem pyGet_pyErase_ne [DecidableEq κ] {l : List (κ × β)} {k0 k1 : κ}
    (h : k1 ≠ k0) : pyGet (pyErase l k0) k1 = pyGet l k1 := by
  induction l with
  | nil => rfl
  | cons p rest ih =>
    obtain ⟨k, v⟩ := p
    by_cases hk : k = k0
    · subst hk
      simpa [pyErase, pyGet, Ne.symm h] using ih
    · by_cases hk1 : k = k1
      · simp [pyErase, pyGet, hk, hk1, h]
      · simpa [pyErase, pyGet, hk, hk1] using ih

theorem map_fst_pySet_mem [DecidableEq κ] {l : List (κ × β)} {k0 : κ} {w : β}
    (hmem : pyGet l k0 = some w) (v0 : β) :
    (pySet l k0 v0).map Prod.fst = l.map Prod.fst := by
  induction l with
  | nil => simp [pyGet] at hmem
  | cons p rest ih =>
    obtain ⟨k, v⟩ := p
    by_cases hk : k = k0
    · simp [pySet, hk]
    · simp only [pyGet, if_neg hk] at hmem
      simp [pySet, hk, ih hmem]

theorem mem_pyGet [DecidableEq κ] {l : List (κ × β)} {k : κ} {v : β}
    (hnd : (l.map Prod.fst).Nodup) (h : (k, v) ∈ l) : pyGet l k = some v := by
  induction l with
  | nil => simp at h
  | cons p rest ih =>
    obtain ⟨k', v'⟩ := p
    simp only [List.map_cons, List.nodup_cons] at hnd
    rcases List.mem_cons.mp h with heq | hmem
    · cases heq
      simp [pyGet]
    · have hk : k' ≠ k := by
        intro he
        apply hnd.1
        rw [he]
        exact List.mem_map.mpr ⟨(k, v), hmem, rfl⟩
      simp [pyGet, hk]
      exact ih hnd.2 hmem

end PyDict

namespace TaskPlanning

theorem get_task_wf {g : TaskGraph} (hwf : ∀ p ∈ g.nodes, p.2.isSome = true)
    (i : String) : get_task g i = .ok (taskAt g i) := by
  unfold get_task taskAt
  cases hg : PyDict.pyGet g.nodes i with
  | none => rfl
  | some o =>
    cases o with
    | none =>
      have := hwf _ (PyDict.pyGet_mem hg)
      simp at this
    | some t => rfl

theorem collectDeps_wf {g : TaskGraph} (hwf : ∀ p ∈ g.nodes, p.2.isSome = true) :
    ∀ ds : List String, collectDeps g ds = .ok (ds.filterMap (taskAt g))
  | [] => rfl
  | d :: rest => by
    have ih := collectDeps_wf hwf rest
    simp only [collectDeps, get_task_wf hwf d, ih, List.filterMap_cons]
    cases taskAt g d <;> rfl

theorem get_dependencies_wf {g : TaskGraph} (hwf : ∀ p ∈ g.nodes, p.2.isSome = true)
    {i : String} (hi : (PyDict.pyGet g.nodes i).isSome = true) :
    get_dependencies g i = .ok ((preds g i).filterMap (taskAt g)) := by
  unfold get_dependencies
  rw [collectDeps_wf hwf]
  cases hg : PyDict.pyGet g.nodes i with
  | none => rw [hg] at hi; simp at hi
  | some o => simp [hg]

theorem nextSpecAt_eq_some {g : TaskGraph} {i : String} {t : TPTask}
    (ht : taskAt g i = some t) (hp : t.status = TPStatus.PENDING)
    (hc : ∀ d ∈ (preds g i).filterMap (taskAt g), d.status = TPStatus.COMPLETED) :
    nextSpecAt g i = some t := by
  unfold nextSpecAt
  rw [ht]
  exact if_pos ⟨hp, hc⟩

theorem nextSpecAt_some_inv {g : TaskGraph} {i : String} {t : TPTask}
    (h : nextSpecAt g i = some t) :
    taskAt g i = some t ∧ t.status = TPStatus.PENDING ∧
      ∀ d ∈ (preds g i).filterMap (taskAt g), d.status = TPStatus.COMPLETED := by
  unfold nextSpecAt at h
  cases ht : taskAt g i with
  | none => rw [ht] at h; exact Option.noConfusion h
  | some t' =>
    rw [ht] at h
    have h' : (if (t'.status = TPStatus.PENDING ∧
        ∀ d ∈ (preds g i).filterMap (taskAt g), d.status = TPStatus.COMPLETED)
        then some t' else none) = some t := h
    by_cases hcond : t'.status = TPStatus.PENDING ∧
        ∀ d ∈ (preds g i).filterMap (taskAt g), d.status = TPStatus.COMPLETED
    · rw [if_pos hcond] at h'
      obtain rfl : t' = t := Option.some.inj h'
      exact ⟨rfl, hcond.1, hcond.2⟩
    · rw [if_neg hcond] at h'
      exact Option.noConfusion h'

theorem nextAux_wf {g : TaskGraph} (hwf : ∀ p ∈ g.nodes, p.2.isSome = true) :
    ∀ ns : List (String × Option TPTask),
      nextAux g ns = .ok ((ns.map Prod.fst).filterMap (nextSpecAt g))
  | [] => rfl
  | (i, att) :: rest => by
    have ih := nextAux_wf hwf rest
    simp only [nextAux, get_task_wf hwf i, List.map_cons, List.filterMap_cons,
      Bind.bind, Except.bind]
    cases ht : taskAt g i with
    | none => simp [nextSpecAt, ht, ih]
    | some t =>
      have hi : (PyDict.pyGet g.nodes i).isSome = true := by
        unfold taskAt at ht
        cases hg : PyDict.pyGet g.nodes i with
        | none => rw [hg] at ht; simp at ht
        | some o => simp
      by_cases hp : t.status = TPStatus.PENDING
      · by_cases hc : ∀ d ∈ (preds g i).filterMap (taskAt g),
            d.status = TPStatus.COMPLETED
        · have hcb : ((preds g i).filterMap (taskAt g)).all
              (fun d => decide (d.status = TPStatus.COMPLETED)) = true := by
            rw [List.all_eq_true]
            intro d hd
            exact decide_eq_true (hc d hd)
          rw [nextSpecAt_eq_some ht hp hc]
          simp only [get_dependencies_wf hwf hi, ih, hp, hcb,
            eq_self_iff_true, if_true]
        · have hcb : ((preds g i).filterMap (taskAt g)).all
              (fun d => decide (d.status = TPStatus.COMPLETED)) = false := by
            cases hb : ((preds g i).filterMap (taskAt g)).all
                (fun d => decide (d.status = TPStatus.COMPLETED)) with
            | false => rfl
            | true =>
              exact absurd
                (fun d hd => of_decide_eq_true (List.all_eq_true.mp hb d hd)) hc
          have hns : nextSpecAt g i = none := by
            unfold nextSpecAt
            rw [ht]
            exact if_neg (fun hand => hc hand.2)
          rw [hns]
          simp only [get_dependencies_wf hwf hi, ih, hp, hcb,
            eq_self_iff_true, if_true, Bool.false_eq_true, if_false]
      · have hns : nextSpecAt g i = none := by
          unfold nextSpecAt
          rw [ht]
          exact if_neg (fun hand => hp hand.1)
        rw [hns]
        have hpb : (t.status = TPStatus.PENDING) = False :=
          eq_false hp
        simp only [ih, hpb, if_false]

theorem taskAt_of_mem {g : TaskGraph} (hnd : (g.nodes.map Prod.fst).Nodup)
    {i : String} {t : TPTask} (h : (i, some t) ∈ g.nodes) :
    taskAt g i = some t := by
  unfold taskAt
  rw [PyDict.mem_pyGet hnd h]
  rfl

/--
C1 (amended): for every well-formed `TaskGraph` (every node carries a `task`
attribute, i.e. every dependency id referenced by an added task was itself
added as a task), `get_next_tasks` returns exactly those tasks in the graph
whose status is `PENDING` and all of whose predecessor tasks have status
`COMPLETED`; in particular a `PENDING` task with no predecessors is always
returned.
-/
theorem taskplanning_get_next_tasks_spec (g : TaskGraph) (hwf : wellFormed g) :
    ∃ l, get_next_tasks g = .ok l ∧
      (∀ t, t ∈ l ↔ ∃ i, (i, some t) ∈ g.nodes ∧ t.status = TPStatus.PENDING ∧
        ∀ u tu, u ∈ preds g i → taskAt g u = some tu →
          tu.status = TPStatus.COMPLETED) ∧
      (∀ i t, (i, some t) ∈ g.nodes → t.status = TPStatus.PENDING →
        preds g i = [] → t ∈ l) := by
  obtain ⟨hwf1, hwf2⟩ := hwf
  refine ⟨(g.nodes.map Prod.fst).filterMap (nextSpecAt g), nextAux_wf hwf1 g.nodes, ?_, ?_⟩
  · intro t
    rw [List.mem_filterMap]
    constructor
    · rintro ⟨i, hi, hs⟩
      obtain ⟨ht, hp, hc⟩ := nextSpecAt_some_inv hs
      have hmem : (i, some t) ∈ g.nodes := by
        unfold taskAt at ht
        cases hg : PyDict.pyGet g.nodes i with
        | none => rw [hg] at ht; simp at ht
        | some o =>
          rw [hg] at ht
          simp at ht
          rw [ht] at hg
          exact PyDict.pyGet_mem hg
      exact ⟨i, hmem, hp,
        fun u tu hu htu => hc tu (List.mem_filterMap.mpr ⟨u, hu, htu⟩)⟩
    · rintro ⟨i, hmem, hp, hdeps⟩
      refine ⟨i, List.mem_map.mpr ⟨(i, some t), hmem, rfl⟩,
        nextSpecAt_eq_some (taskAt_of_mem hwf2 hmem) hp ?_⟩
      intro d hd
      obtain ⟨u, hu, htu⟩ := List.mem_filterMap.mp hd
      exact hdeps u d hu htu
  · intro i t hmem hp hpreds
    apply List.mem_filterMap.mpr
    refine ⟨i, List.mem_map.mpr ⟨(i, some t), hmem, rfl⟩,
      nextSpecAt_eq_some (taskAt_of_mem hwf2 hmem) hp ?_⟩
    rw [hpreds]
    intro d hd
    simp at hd

/-- Witness for C1 at a concrete graph. -/
theorem taskplanning_get_next_tasks_spec_witness :
    wellFormed c1WitnessGraph ∧
    (∃ l, get_next_tasks c1WitnessGraph = .ok l ∧
      (∀ t, t ∈ l ↔ ∃ i, (i, some t) ∈ c1WitnessGraph.nodes ∧
        t.status = TPStatus.PENDING ∧
        ∀ u tu, u ∈ preds c1WitnessGraph i → taskAt c1WitnessGraph u = some tu →
          tu.status = TPStatus.COMPLETED) ∧
      (∀ i t, (i, some t) ∈ c1WitnessGraph.nodes → t.status = TPStatus.PENDING →
        preds c1WitnessGraph i = [] → t ∈ l)) :=
  ⟨by decide, taskplanning_get_next_tasks_spec c1WitnessGraph (by decide)⟩

/--
C1 counterexample: in `c1DanglingGraph` the task `b` is `PENDING` and has no
predecessor task in the graph (node `a` exists but carries no task), so the
claim requires `get_next_tasks` to return it; instead the code raises
`KeyError` when it reads the missing `task` attribute of node `a`, and
`get_next_tasks` returns no list at all.
-/
theorem taskplanning_get_next_tasks_counterexample :
    taskAt c1DanglingGraph "b" =
      some { id := "b", name := "B", description := "",
             status := TPStatus.PENDING, dependencies := ["a"],
             parent_id := none } ∧
    get_next_tasks c1DanglingGraph = .error () := by
  constructor
  · rfl
  · rfl

end TaskPlanning

namespace MAS

/--
C9: `remove_agent` returns `False` and leaves the system unchanged when the
target agent is the coordinator; removing a non-coordinator agent whose
current task is present cancels that task and deletes the agent.
-/
theorem mas_remove_agent_spec (s : MASystem) (aid : String) (a : MASAgent)
    (ha : PyDict.pyGet s.agents aid = some a) :
    (a.role = AgentRole.COORDINATOR → removeAgent s aid = (s, false)) ∧
    (a.role ≠ AgentRole.COORDINATOR →
      ∀ tid task, a.current_task_id = some tid → tid ≠ "" →
        PyDict.pyGet s.tasks tid = some task →
        (removeAgent s aid).2 = true ∧
        PyDict.pyGet (removeAgent s aid).1.agents aid = none ∧
        PyDict.pyGet (removeAgent s aid).1.tasks tid =
          some ({ task with status := MASStatus.CANCELLED })) := by
  constructor
  · intro hrole
    simp [removeAgent, ha, hrole]
  · intro hrole tid task hcur htid htask
    have hopt : optTruthy a.current_task_id = true := by
      rw [hcur]
      simp [optTruthy, htid]
    have hgd : a.current_task_id.getD "" = tid := by
      rw [hcur]
      rfl
    have hra : removeAgent s aid =
        ({ agents := PyDict.pyErase s.agents aid,
           tasks := PyDict.pySet s.tasks tid
             ({ task with status := MASStatus.CANCELLED }) }, true) := by
      simp [removeAgent, ha, hrole, hopt, hgd, htask]
    rw [hra]
    exact ⟨rfl, PyDict.pyGet_pyErase_self _ _, PyDict.pyGet_pySet_self _ _ _⟩

/-- Witness for C9 at a concrete system: the coordinator `a1` cannot be
removed; removing `a2` cancels its task `t1`. -/
theorem mas_remove_agent_spec_witness :
    removeAgent c9System "a1" = (c9System, false) ∧
    ((removeAgent c9System "a2").2 = true ∧
     PyDict.pyGet (removeAgent c9System "a2").1.agents "a2" = none ∧
     PyDict.pyGet (removeAgent c9System "a2").1.tasks "t1" =
       some ({ c9Task with status := MASStatus.CANCELLED })) :=
  ⟨(mas_remove_agent_spec c9System "a1" c9Coord (by rfl)).1 (by decide),
   (mas_remove_agent_spec c9System "a2" c9Agent (by rfl)).2 (by decide)
     "t1" c9Task rfl (by decide) (by rfl)⟩

end MAS

namespace MAS

theorem depsCompleted_iff (tasks : List (String × MASTask)) (b : MASTask) :
    depsCompleted tasks b = true ↔
      ∀ d ∈ b.dependencies, ∀ dt, PyDict.pyGet tasks d = some dt →
        dt.status = MASStatus.COMPLETED := by
  unfold depsCompleted
  rw [List.all_eq_true]
  constructor
  · intro h d hd dt hdt
    have := h d hd
    rw [hdt] at this
    exact of_decide_eq_true this
  · intro h d hd
    cases hdt : PyDict.pyGet tasks d with
    | none => rfl
    | some dt => exact decide_eq_true (h d hd dt hdt)

theorem findBlockingDep_none (s : MASystem) (t : MASTask)
    (h : ∀ d ∈ t.dependencies, ∀ dt, PyDict.pyGet s.tasks d = some dt →
      dt.status = MASStatus.COMPLETED) :
    findBlockingDep s t = none := by
  unfold findBlockingDep
  rw [List.find?_eq_none]
  intro d hd
  cases hdt : PyDict.pyGet s.tasks d with
  | none => simp
  | some dt => simp [h d hd dt hdt]

theorem findBlockingDep_isSome (s : MASystem) (t : MASTask)
    {d : String} {dt : MASTask} (hd : d ∈ t.dependencies)
    (hdt : PyDict.pyGet s.tasks d = some dt)
    (hs : dt.status ≠ MASStatus.COMPLETED) :
    (findBlockingDep s t).isSome = true := by
  unfold findBlockingDep
  rw [List.find?_isSome]
  exact ⟨d, hd, by simp [hdt, hs]⟩

theorem assignTask_tasks_ne (s : MASystem) (tid tid' : String) (h : tid' ≠ tid) :
    PyDict.pyGet (assignTask s tid).1.tasks tid' = PyDict.pyGet s.tasks tid' := by
  unfold assignTask
  cases ht : PyDict.pyGet s.tasks tid with
  | none => rfl
  | some t =>
    by_cases h1 : optTruthy t.assigned_agent_id = true
    · simp [h1]
    · by_cases h2 : (findBlockingDep s t).isSome = true
      · simp [h1, h2, PyDict.pyGet_pySet_ne _ h]
      · cases hb : pickBest t ((s.agents.map Prod.snd).filter
            (fun a => is_available a && can_handle_task a t)) with
        | none => simp [h1, h2, hb]
        | some best => simp [h1, h2, hb, PyDict.pyGet_pySet_ne _ h]

theorem assignTask_no_block (s : MASystem) (tid : String) (t : MASTask)
    (ht : PyDict.pyGet s.tasks tid = some t)
    (hun : optTruthy t.assigned_agent_id = false)
    (hnb : findBlockingDep s t = none) :
    ∃ t', PyDict.pyGet (assignTask s tid).1.tasks tid = some t' ∧
      (t' = t ∨ t'.status = MASStatus.ASSIGNED) := by
  unfold assignTask
  rw [ht]
  have h1 : ¬ (optTruthy t.assigned_agent_id = true) := by simp [hun]
  have h2 : ¬ ((findBlockingDep s t).isSome = true) := by simp [hnb]
  cases hb : pickBest t ((s.agents.map Prod.snd).filter
      (fun a => is_available a && can_handle_task a t)) with
  | none => exact ⟨t, by simp [h1, h2, hb, ht], Or.inl rfl⟩
  | some best =>
    refine ⟨{ t with assigned_agent_id := some best.id, status := MASStatus.ASSIGNED }, ?_, Or.inr rfl⟩
    simp [h1, h2, hb, PyDict.pyGet_pySet_self]

theorem pbStep_none {s : MASystem} {bid : String}
    (h : PyDict.pyGet s.tasks bid = none) : pbStep s bid = s := by
  unfold pbStep
  rw [h]

theorem pbStep_hit {s : MASystem} {bid : String} {b : MASTask}
    (h : PyDict.pyGet s.tasks bid = some b)
    (hdc : depsCompleted s.tasks b = true) :
    pbStep s bid =
      (assignTask
        { s with
          tasks := PyDict.pySet s.tasks bid ({ b with status := MASStatus.PENDING }) }
        bid).1 := by
  unfold pbStep
  rw [h]
  simp only [hdc, if_true]

theorem pbStep_skip {s : MASystem} {bid : String} {b : MASTask}
    (h : PyDict.pyGet s.tasks bid = some b)
    (hdc : depsCompleted s.tasks b = false) : pbStep s bid = s := by
  unfold pbStep
  rw [h]
  simp only [hdc, Bool.false_eq_true, if_false]

theorem pbStep_tasks_ne (s : MASystem) (bid x : String) (hx : x ≠ bid) :
    PyDict.pyGet (pbStep s bid).tasks x = PyDict.pyGet s.tasks x := by
  cases hb : PyDict.pyGet s.tasks bid with
  | none => rw [pbStep_none hb]
  | some b =>
    cases hdc : depsCompleted s.tasks b with
    | false => rw [pbStep_skip hb hdc]
    | true =>
      rw [pbStep_hit hb hdc, assignTask_tasks_ne _ _ _ hx]
      exact PyDict.pyGet_pySet_ne _ hx

theorem processBlocked_not_mem (x : String) :
    ∀ (ids : List String) (s : MASystem), x ∉ ids →
      PyDict.pyGet (processBlocked s ids).tasks x = PyDict.pyGet s.tasks x
  | [], s, _ => rfl
  | bid :: rest, s, hx => by
    have hxb : x ≠ bid := fun he => hx (he ▸ List.mem_cons_self bid rest)
    have hxr : x ∉ rest := fun hr => hx (List.mem_cons_of_mem _ hr)
    show PyDict.pyGet (processBlocked (pbStep s bid) rest).tasks x = _
    rw [processBlocked_not_mem x rest _ hxr]
    exact pbStep_tasks_ne s bid x hxb

theorem processBlocked_append (l1 l2 : List String) (s : MASystem) :
    processBlocked s (l1 ++ l2) = processBlocked (processBlocked s l1) l2 :=
  List.foldl_append pbStep s l1 l2

end MAS


namespace MAS

theorem processBlocked_cons (s : MASystem) (bid : String) (rest : List String) :
    processBlocked s (bid :: rest) = processBlocked (pbStep s bid) rest := rfl

theorem mem_blockedIds {tasks : List (String × MASTask)} {bid : String}
    {b : MASTask} (h : (bid, b) ∈ tasks) (hbs : b.status = MASStatus.BLOCKED) :
    bid ∈ blockedIds tasks :=
  List.mem_map.mpr ⟨(bid, b), List.mem_filter.mpr ⟨h, by simp [hbs]⟩, rfl⟩

theorem blockedIds_mem {tasks : List (String × MASTask)} {d : String}
    (h : d ∈ blockedIds tasks) :
    ∃ v, (d, v) ∈ tasks ∧ v.status = MASStatus.BLOCKED := by
  obtain ⟨p, hp, hfst⟩ := List.mem_map.mp h
  obtain ⟨hmem, hcond⟩ := List.mem_filter.mp hp
  obtain ⟨k, v⟩ := p
  cases hfst
  exact ⟨v, hmem, of_decide_eq_true hcond⟩

theorem blockedIds_nodup {tasks : List (String × MASTask)}
    (h : (tasks.map Prod.fst).Nodup) : (blockedIds tasks).Nodup :=
  h.sublist ((List.filter_sublist tasks).map Prod.fst)

end MAS

namespace MAS

/--
C2: in `MultiAgentSystem`, `_assign_task` never assigns a task while some
dependency present in the system is not `COMPLETED`: it marks the task
`BLOCKED` and assigns no agent.  When `complete_task` completes the last
incomplete dependency of a blocked task, `_check_blocked_tasks` sets the
blocked task back to `PENDING` and retries assignment, so afterwards its
status is `PENDING` (no agent could take it) or `ASSIGNED`.
-/
theorem mas_dependency_blocking_spec :
    (∀ (s : MASystem) (tid : String) (t : MASTask),
      PyDict.pyGet s.tasks tid = some t →
      optTruthy t.assigned_agent_id = false →
      (∃ d ∈ t.dependencies, ∃ dt, PyDict.pyGet s.tasks d = some dt ∧
        dt.status ≠ MASStatus.COMPLETED) →
      assignTask s tid =
        ({ s with tasks := PyDict.pySet s.tasks tid ({ t with status := MASStatus.BLOCKED }) },
         false)) ∧
    (∀ (s : MASystem) (bid cid aid : String) (b c : MASTask) (ag : MASAgent),
      (s.tasks.map Prod.fst).Nodup →
      PyDict.pyGet s.tasks bid = some b →
      b.status = MASStatus.BLOCKED →
      b.assigned_agent_id = none →
      PyDict.pyGet s.tasks cid = some c →
      c.assigned_agent_id = some aid →
      aid ≠ "" →
      PyDict.pyGet s.agents aid = some ag →
      bid ≠ cid →
      (∀ d ∈ b.dependencies, d ≠ cid →
        ∀ dt, PyDict.pyGet s.tasks d = some dt →
          dt.status = MASStatus.COMPLETED) →
      (completeTask s cid).2 = true ∧
      ∃ b', PyDict.pyGet (completeTask s cid).1.tasks bid = some b' ∧
        (b'.status = MASStatus.PENDING ∨ b'.status = MASStatus.ASSIGNED)) := by
  constructor
  · intro s tid t ht hun hdep
    obtain ⟨d, hd, dt, hdt, hds⟩ := hdep
    have h1 : ¬ (optTruthy t.assigned_agent_id = true) := by simp [hun]
    have h2 : (findBlockingDep s t).isSome = true :=
      findBlockingDep_isSome s t hd hdt hds
    unfold assignTask
    rw [ht]
    simp [h1, h2]
  · intro s bid cid aid b c ag hnd hb hbs hba hc hca haid hag hne hdeps
    have htr : optTruthy c.assigned_agent_id = true := by
      rw [hca]
      simp [optTruthy, haid]
    have hgd : c.assigned_agent_id.getD "" = aid := by rw [hca]; rfl
    set ag' : MASAgent := { ag with task_history := ag.task_history ++ [c.id], current_task_id := none } with hagd
    set c' : MASTask := { c with status := MASStatus.COMPLETED } with hcd
    set s1 : MASystem := { agents := PyDict.pySet s.agents aid ag', tasks := PyDict.pySet s.tasks cid c' } with hs1
    have hcomp : completeTask s cid = (checkBlockedTasks s1, true) := by
      unfold completeTask
      rw [hc]
      simp only [htr, not_true, if_false, hgd, hag, hs1, hagd, hcd]
    -- facts about the intermediate state s1
    have hkeys1 : s1.tasks.map Prod.fst = s.tasks.map Prod.fst :=
      PyDict.map_fst_pySet_mem hc _
    have hnd1 : (s1.tasks.map Prod.fst).Nodup := by rw [hkeys1]; exact hnd
    have hb1 : PyDict.pyGet s1.tasks bid = some b :=
      (PyDict.pyGet_pySet_ne _ hne).trans hb
    have hc1 : PyDict.pyGet s1.tasks cid = some c' :=
      PyDict.pyGet_pySet_self _ _ _
    have hdeps1 : ∀ d ∈ b.dependencies, ∀ dt,
        PyDict.pyGet s1.tasks d = some dt → dt.status = MASStatus.COMPLETED := by
      intro d hd dt hdt
      by_cases hdc : d = cid
      · subst hdc
        rw [hc1] at hdt
        cases hdt
        rfl
      · rw [show PyDict.pyGet s1.tasks d = PyDict.pyGet s.tasks d from
          PyDict.pyGet_pySet_ne _ hdc] at hdt
        exact hdeps d hd hdc dt hdt
    have hdne : ∀ d ∈ b.dependencies, d ≠ bid := by
      intro d hd he
      subst he
      have := hdeps d hd hne b hb
      rw [hbs] at this
      exact MASStatus.noConfusion this
    have hdnotsnap : ∀ d ∈ b.dependencies, d ∉ blockedIds s1.tasks := by
      intro d hd hdin
      obtain ⟨v, hvmem, hvstat⟩ := blockedIds_mem hdin
      have hvget : PyDict.pyGet s1.tasks d = some v := PyDict.mem_pyGet hnd1 hvmem
      have hcompl := hdeps1 d hd v hvget
      rw [hvstat] at hcompl
      exact MASStatus.noConfusion hcompl
    -- bid is in the snapshot of blocked ids
    have hbid_snap : bid ∈ blockedIds s1.tasks :=
      mem_blockedIds (PyDict.pyGet_mem hb1) hbs
    have hsnap_nodup : (blockedIds s1.tasks).Nodup := blockedIds_nodup hnd1
    obtain ⟨l1, l2, hsplit⟩ := List.append_of_mem hbid_snap
    have hnds : (l1 ++ bid :: l2).Nodup := by rw [← hsplit]; exact hsnap_nodup
    have hbl1 : bid ∉ l1 := by
      have hdisj := (List.nodup_append.mp hnds).2.2
      intro hin
      exact hdisj hin (List.mem_cons_self bid l2)
    have hbl2 : bid ∉ l2 :=
      (List.nodup_cons.mp (List.nodup_append.mp hnds).2.1).1
    -- run the snapshot loop up to bid
    set u : MASystem := processBlocked s1 l1 with hu
    have hub : PyDict.pyGet u.tasks bid = some b :=
      (processBlocked_not_mem bid l1 s1 hbl1).trans hb1
    have hl1sub : ∀ x ∈ l1, x ∈ blockedIds s1.tasks := by
      intro x hx
      rw [hsplit]
      exact List.mem_append.mpr (Or.inl hx)
    have hdu : ∀ d ∈ b.dependencies,
        PyDict.pyGet u.tasks d = PyDict.pyGet s1.tasks d := by
      intro d hd
      exact processBlocked_not_mem d l1 s1 (fun hin => hdnotsnap d hd (hl1sub d hin))
    have hdepsu : ∀ d ∈ b.dependencies, ∀ dt,
        PyDict.pyGet u.tasks d = some dt → dt.status = MASStatus.COMPLETED := by
      intro d hd dt hdt
      rw [hdu d hd] at hdt
      exact hdeps1 d hd dt hdt
    have hdcu : depsCompleted u.tasks b = true :=
      (depsCompleted_iff u.tasks b).mpr hdepsu
    -- the iteration that processes bid
    set b2 : MASTask := { b with status := MASStatus.PENDING } with hb2
    set u1 : MASystem := { u with tasks := PyDict.pySet u.tasks bid b2 } with hu1
    have hstep : pbStep u bid = (assignTask u1 bid).1 := pbStep_hit hub hdcu
    have hgb2 : PyDict.pyGet u1.tasks bid = some b2 :=
      PyDict.pyGet_pySet_self _ _ _
    have hunb2 : optTruthy b2.assigned_agent_id = false := by
      rw [hb2]
      simp only []
      rw [hba]
      rfl
    have hnb2 : findBlockingDep u1 b2 = none := by
      apply findBlockingDep_none
      intro d hd dt hdt
      have hd' : d ∈ b.dependencies := hd
      rw [show PyDict.pyGet u1.tasks d = PyDict.pyGet u.tasks d from
        PyDict.pyGet_pySet_ne _ (hdne d hd')] at hdt
      exact hdepsu d hd' dt hdt
    obtain ⟨t', hgt', hor⟩ := assignTask_no_block u1 bid b2 hgb2 hunb2 hnb2
    -- the rest of the snapshot loop does not touch bid
    have hfinal : PyDict.pyGet (processBlocked (assignTask u1 bid).1 l2).tasks bid
        = some t' :=
      (processBlocked_not_mem bid l2 _ hbl2).trans hgt'
    have hcbt : checkBlockedTasks s1 =
        processBlocked (assignTask u1 bid).1 l2 := by
      unfold checkBlockedTasks
      rw [hsplit, processBlocked_append, processBlocked_cons, ← hu, hstep]
    refine ⟨by rw [hcomp], t', ?_, ?_⟩
    · rw [hcomp]
      simpa [hcbt] using hfinal
    · rcases hor with h | h
      · left
        rw [h, hb2]
      · right
        exact h

end MAS

namespace MAS

/-- Witness for C2 at a concrete system: assigning the blocked task fails
and re-blocks it while `t1` is in progress; completing `t1` unblocks `t2`. -/
theorem mas_dependency_blocking_spec_witness :
    (assignTask c2System "t2" =
      ({ c2System with tasks := PyDict.pySet c2System.tasks "t2" ({ c2BlockedTask with status := MASStatus.BLOCKED }) },
       false)) ∧
    ((completeTask c2System "t1").2 = true ∧
      ∃ b', PyDict.pyGet (completeTask c2System "t1").1.tasks "t2" = some b' ∧
        (b'.status = MASStatus.PENDING ∨ b'.status = MASStatus.ASSIGNED)) :=
  ⟨mas_dependency_blocking_spec.1 c2System "t2" c2BlockedTask (by rfl) (by rfl)
      ⟨"t1", by decide, c2DepTask, by rfl, by decide⟩,
   mas_dependency_blocking_spec.2 c2System "t2" "t1" "a1" c2BlockedTask
      c2DepTask c2Worker (by decide) (by rfl) (by rfl) (by rfl) (by rfl)
      (by rfl) (by decide) (by rfl) (by decide)
      (fun d hd hne' dt hdt => absurd (List.mem_singleton.mp hd) hne')⟩

end MAS

namespace TI

theorem ratePhase_frame (r : ToolRegistry) (tool : ToolDef) (n : String)
    (now : ℚ) :
    (ratePhase r tool n now).1.cache = r.cache ∧
    (ratePhase r tool n now).1.tools = r.tools ∧
    (ratePhase r tool n now).1.max_size = r.max_size := by
  unfold ratePhase
  cases tool.rate_limit with
  | none => exact ⟨rfl, rfl, rfl⟩
  | some m =>
    by_cases hm : m = 0
    · simp [hm]
    · simp [hm]

theorem cacheCont_none (r2 : ToolRegistry) (tool : ToolDef) (tool_name : String)
    (args : List (String × Val)) (key : Option String) (use_cache : Bool)
    (now : ℚ) :
    cacheCont r2 tool tool_name args key use_cache now none =
      execPhase r2 tool tool_name args key use_cache now := rfl

theorem cacheCont_truthy {v : Val} (r2 : ToolRegistry) (tool : ToolDef)
    (tool_name : String) (args : List (String × Val)) (key : Option String)
    (use_cache : Bool) (now : ℚ) (htv : valTruthy v = true) :
    cacheCont r2 tool tool_name args key use_cache now (some v) =
      (r2, { success := true, result := some v, error := none, cached := true }) := by
  simp only [cacheCont]
  rw [if_pos htv]

theorem cacheCont_falsy {v : Val} (r2 : ToolRegistry) (tool : ToolDef)
    (tool_name : String) (args : List (String × Val)) (key : Option String)
    (use_cache : Bool) (now : ℚ) (hvf : valTruthy v = false) :
    cacheCont r2 tool tool_name args key use_cache now (some v) =
      execPhase r2 tool tool_name args key use_cache now := by
  simp only [cacheCont]
  rw [hvf]
  simp only [Bool.false_eq_true, if_false]

theorem cacheGet_miss (cache : List (CacheKey × CacheEntry)) (tool_name : String)
    (args : List (String × Val)) (now : ℚ)
    (h : PyDict.pyGet cache (cacheKey tool_name args) = none) :
    cacheGet cache tool_name args now = .ok (cache, none) := by
  unfold cacheGet
  rw [h]

theorem cacheGet_expired (cache : List (CacheKey × CacheEntry)) (tool_name : String)
    (args : List (String × Val)) (now : ℚ) {it : CacheEntry} {ex : ℚ}
    (h : PyDict.pyGet cache (cacheKey tool_name args) = some it)
    (he : it.expiry = some ex) (hex : ex < now) :
    cacheGet cache tool_name args now =
      .ok (PyDict.pyErase cache (cacheKey tool_name args), none) := by
  unfold cacheGet
  simp only [h, he, hex, if_true]

theorem cacheGet_hit (cache : List (CacheKey × CacheEntry)) (tool_name : String)
    (args : List (String × Val)) (now : ℚ) {it : CacheEntry} {ex : ℚ}
    (h : PyDict.pyGet cache (cacheKey tool_name args) = some it)
    (he : it.expiry = some ex) (hex : ¬ ex < now) :
    cacheGet cache tool_name args now = .ok (cache, some it.result) := by
  unfold cacheGet
  simp only [h, he, hex, if_false]

/--
C5: `execute_tool` never propagates an exception raised by the tool's
function: whenever the call reaches the function (tool found, api-key check
passed, rate limit passed, no truthy cache hit) and the function raises,
the returned result has `success=False`, `error` equal to the exception
text, and `cached=False`.
-/
theorem ti_execute_tool_catches (r : ToolRegistry) (tool_name : String)
    (args : List (String × Val)) (use_cache : Bool) (apiKey : Option String)
    (env : List (String × String)) (now : ℚ) (tool : ToolDef) (e : String)
    (ht : PyDict.pyGet r.tools tool_name = some tool)
    (hkey : ¬ (tool.requires_api_key = true ∧
      MAS.optTruthy (resolveApiKey tool apiKey env) = false))
    (hrate : (ratePhase r tool tool_name now).2 = true)
    (hcache : use_cache = true ∧ tool.cache_ttl ≠ none →
      ∃ c2 v?, cacheGet r.cache tool_name args now = .ok (c2, v?) ∧
        ∀ v, v? = some v → valTruthy v = false)
    (hfunc : tool.func (effArgs tool (resolveApiKey tool apiKey env) args) =
      .error e) :
    ∃ r', executeTool r tool_name args use_cache apiKey env now =
      .ok (r', failRes e) := by
  have hexec : ∀ r0 : ToolRegistry,
      execPhase r0 tool tool_name args (resolveApiKey tool apiKey env)
        use_cache now = (r0, failRes e) := by
    intro r0
    unfold execPhase
    rw [hfunc]
    rfl
  unfold executeTool
  simp only [ht]
  rw [if_neg hkey, hrate]
  simp only [Bool.true_eq_false, if_false]
  by_cases huc : use_cache = true ∧ tool.cache_ttl ≠ none
  · obtain ⟨c2, v?, hget, hv⟩ := hcache huc
    rw [(ratePhase_frame r tool tool_name now).1]
    simp only [hget, if_pos huc]
    cases v? with
    | none =>
      rw [cacheCont_none, hexec]
      exact ⟨_, rfl⟩
    | some v =>
      rw [cacheCont_falsy _ _ _ _ _ _ _ (hv v rfl), hexec]
      exact ⟨_, rfl⟩
  · simp only [if_neg huc]
    rw [hexec]
    exact ⟨_, rfl⟩

end TI

namespace TI

/-- Witness for C5: executing `c5Tool` returns the caught exception text. -/
theorem ti_execute_tool_catches_witness :
    ∃ r', executeTool c5Reg "boom" [] true none [] 0 =
      .ok (r', failRes "kaput") :=
  ti_execute_tool_catches c5Reg "boom" [] true none [] 0 c5Tool "kaput"
    (by rfl) (by decide) (by rfl) (fun h => absurd rfl h.2) (by rfl)

end TI

namespace TI

theorem execPhase_ne_failRes {r0 : ToolRegistry} {tool : ToolDef}
    {tool_name : String} {args : List (String × Val)} {key : Option String}
    {use_cache : Bool} {now : ℚ} {msg : String}
    (hfunc : ∀ a, tool.func a ≠ .error msg) :
    (execPhase r0 tool tool_name args key use_cache now).2 ≠ failRes msg := by
  unfold execPhase
  cases hf : tool.func (effArgs tool key args) with
  | ok v =>
    intro he
    simp [failRes] at he
  | error e =>
    intro he
    simp only [failRes, ToolResult.mk.injEq] at he
    obtain ⟨-, -, he2, -⟩ := he
    have hem : e = msg := Option.some.inj he2
    exact hfunc (effArgs tool key args) (by rw [hf, hem])

/--
C3 (amended): for every tool registered with a positive rate limit N whose
api-key requirement is satisfied, whose cache holds no poisoned entry for
this call, and whose own function never fails with the rate-limit message,
`execute_tool` returns the failure result whose error says the rate limit
was exceeded exactly when N or more recorded calls of that tool lie within
the 60 seconds preceding the call; older recorded calls never count
(sliding window).
-/
theorem ti_rate_limit_spec (r : ToolRegistry) (tool_name : String)
    (args : List (String × Val)) (use_cache : Bool) (apiKey : Option String)
    (env : List (String × String)) (now : ℚ) (tool : ToolDef) (n : Int)
    (ht : PyDict.pyGet r.tools tool_name = some tool)
    (hn : tool.rate_limit = some n) (hpos : 1 ≤ n)
    (hkey : ¬ (tool.requires_api_key = true ∧
      MAS.optTruthy (resolveApiKey tool apiKey env) = false))
    (hwfc : ∀ it, PyDict.pyGet r.cache (cacheKey tool_name args) = some it →
      it.expiry ≠ none)
    (hfunc : ∀ a, tool.func a ≠
      .error ("Rate limit exceeded for tool " ++ tool_name)) :
    ∃ p : ToolRegistry × ToolResult,
      executeTool r tool_name args use_cache apiKey env now = .ok p ∧
      (p.2 = failRes ("Rate limit exceeded for tool " ++ tool_name) ↔
        n ≤ ((rlRecent ((PyDict.pyGet r.rl tool_name).getD []) now).length : Int)) := by
  have hn0 : ¬ (n = 0) := by omega
  have hrp : ratePhase r tool tool_name now =
      ({ r with rl := PyDict.pySet r.rl tool_name (rlRecent ((PyDict.pyGet r.rl tool_name).getD []) now) },
       decide (((rlRecent ((PyDict.pyGet r.rl tool_name).getD []) now).length : Int) < n)) := by
    unfold ratePhase checkRateLimit
    rw [hn]
    simp [hn0]
  by_cases hcnt : n ≤ ((rlRecent ((PyDict.pyGet r.rl tool_name).getD []) now).length : Int)
  · have hdec : (ratePhase r tool tool_name now).2 = false := by
      rw [hrp]
      simp [hcnt]
    unfold executeTool
    simp only [ht]
    rw [if_neg hkey, hdec]
    exact ⟨_, rfl, iff_of_true rfl hcnt⟩
  · have hlt : ((rlRecent ((PyDict.pyGet r.rl tool_name).getD []) now).length : Int) < n := by
      omega
    have hdec : (ratePhase r tool tool_name now).2 = true := by
      rw [hrp]
      simp [hlt]
    have hcache2 : ∀ it, PyDict.pyGet (ratePhase r tool tool_name now).1.cache
        (cacheKey tool_name args) = some it → it.expiry ≠ none := by
      intro it hit
      rw [(ratePhase_frame r tool tool_name now).1] at hit
      exact hwfc it hit
    suffices h : ∃ p : ToolRegistry × ToolResult,
        executeTool r tool_name args use_cache apiKey env now = .ok p ∧
        p.2 ≠ failRes ("Rate limit exceeded for tool " ++ tool_name) by
      obtain ⟨p, heq, hne⟩ := h
      exact ⟨p, heq, iff_of_false hne hcnt⟩
    unfold executeTool
    simp only [ht]
    rw [if_neg hkey, hdec]
    simp only [Bool.true_eq_false, if_false]
    by_cases huc : use_cache = true ∧ tool.cache_ttl ≠ none
    · rw [if_pos huc]
      cases hgot : PyDict.pyGet (ratePhase r tool tool_name now).1.cache
          (cacheKey tool_name args) with
      | none =>
        rw [cacheGet_miss _ _ _ _ hgot]
        refine ⟨_, rfl, ?_⟩
        rw [cacheCont_none]
        exact execPhase_ne_failRes hfunc
      | some it =>
        cases hexp : it.expiry with
        | none => exact absurd hexp (hcache2 it hgot)
        | some ex =>
          by_cases hlt2 : ex < now
          · rw [cacheGet_expired _ _ _ _ hgot hexp hlt2]
            refine ⟨_, rfl, ?_⟩
            rw [cacheCont_none]
            exact execPhase_ne_failRes hfunc
          · rw [cacheGet_hit _ _ _ _ hgot hexp hlt2]
            cases htv : valTruthy it.result with
            | true =>
              refine ⟨_, rfl, ?_⟩
              rw [cacheCont_truthy _ _ _ _ _ _ _ htv]
              intro he
              simp [failRes] at he
            | false =>
              refine ⟨_, rfl, ?_⟩
              rw [cacheCont_falsy _ _ _ _ _ _ _ htv]
              exact execPhase_ne_failRes hfunc
    · rw [if_neg huc]
      exact ⟨_, rfl, execPhase_ne_failRes hfunc⟩

end TI

namespace TI

/-- Witness for C3 (amended) at `c3WReg`: limit 2, one recorded call in the
window. -/
theorem ti_rate_limit_spec_witness :
    ∃ p : ToolRegistry × ToolResult,
      executeTool c3WReg "w" [] true none [] 10 = .ok p ∧
      (p.2 = failRes ("Rate limit exceeded for tool " ++ "w") ↔
        (2 : Int) ≤ ((rlRecent ((PyDict.pyGet c3WReg.rl "w").getD []) 10).length : Int)) :=
  ti_rate_limit_spec c3WReg "w" [] true none [] 10 c3WTool 2
    (by rfl) (by rfl) (by decide) (by decide)
    (fun it h => Option.noConfusion h)
    (fun a h => Except.noConfusion h)

/--
C3 counterexample, three violations of the claim as stated:
(i) a tool registered with `rate_limit=0`: zero recorded calls already
satisfy "0 or more within the window", so the claim demands a rate-limit
failure, but Python treats `0` as falsy and skips the check entirely — the
call succeeds;
(ii) a tool requiring an api key, limit 1 and three recorded recent calls:
the claim demands the rate-limit failure, but `execute_tool` returns the
api-key failure instead;
(iii) a tool whose function raises exactly the rate-limit text, limit 5
and zero recorded calls: the claim allows a result whose error says the
rate limit was exceeded only when 5 or more calls are recorded, yet the
returned failure carries exactly that error.
-/
theorem ti_rate_limit_counterexample :
    resOf (executeTool c3ZeroReg "z" [] true none [] 0) =
      some { success := true, result := some (Val.vint 1), error := none,
             cached := false } ∧
    resOf (executeTool c3KeyReg "k" [] true none [] 1) =
      some (failRes ("Tool " ++ "k" ++ " requires an API key")) ∧
    resOf (executeTool c3MsgReg "m" [] true none [] 0) =
      some (failRes ("Rate limit exceeded for tool " ++ "m")) := by
  refine ⟨?_, ?_, ?_⟩ <;> rfl

end TI

namespace PyDict

theorem length_pySet_none [DecidableEq κ] {l : List (κ × β)} {k : κ}
    (h : pyGet l k = none) (v : β) : (pySet l k v).length = l.length + 1 := by
  induction l with
  | nil => rfl
  | cons p rest ih =>
    obtain ⟨k1, v1⟩ := p
    by_cases hk : k1 = k
    · rw [hk] at h
      simp [pyGet] at h
    · simp only [pyGet, if_neg hk] at h
      simp [pySet, hk, ih h]

end PyDict

namespace TI

theorem cacheSet_fresh (cache : List (CacheKey × CacheEntry)) (max_size : Nat)
    (tool_name : String) (args : List (String × Val)) (v : Val) (ttl : ℚ)
    (now : ℚ)
    (hmiss : PyDict.pyGet cache (cacheKey tool_name args) = none)
    (hsize : cache.length < max_size) :
    cacheSet cache max_size tool_name args v (some ttl) now =
      PyDict.pySet cache (cacheKey tool_name args)
        { result := v, timestamp := now, expiry := some (now + ttl) } := by
  unfold cacheSet
  simp only [Option.map]
  rw [PyDict.length_pySet_none hmiss]
  rw [if_neg (by omega)]

end TI

namespace TI

theorem ti_cache_spec_second (r1 : ToolRegistry) (tool_name : String)
    (args : List (String × Val)) (apiKey : Option String)
    (env : List (String × String)) (now2 : ℚ) (tool1 : ToolDef)
    (it : CacheEntry) (v : Val) (ex : ℚ)
    (ht1 : PyDict.pyGet r1.tools tool_name = some tool1)
    (hak1 : tool1.requires_api_key = false)
    (httl1 : tool1.cache_ttl ≠ none)
    (hrate2 : (ratePhase r1 tool1 tool_name now2).2 = true)
    (hc1 : PyDict.pyGet r1.cache (cacheKey tool_name args) = some it)
    (hexp : it.expiry = some ex)
    (hnot : ¬ ex < now2)
    (hres : it.result = v)
    (htv : valTruthy v = true) :
    ∃ r2, executeTool r1 tool_name args true apiKey env now2 =
        .ok (r2, { success := true, result := some v, error := none, cached := true }) ∧
      r2.tools = r1.tools := by
  have hkey2 : ¬ (tool1.requires_api_key = true ∧
      MAS.optTruthy (resolveApiKey tool1 apiKey env) = false) := by
    rw [hak1]
    simp
  unfold executeTool
  simp only [ht1]
  rw [if_neg hkey2, hrate2]
  simp only [Bool.true_eq_false, if_false]
  rw [if_pos (show True ∧ tool1.cache_ttl ≠ none from ⟨trivial, httl1⟩)]
  rw [(ratePhase_frame r1 tool1 tool_name now2).1]
  simp only [cacheGet_hit _ _ _ _ hc1 hexp hnot]
  rw [hres]
  simp only [cacheCont_truthy _ _ _ _ _ _ _ htv]
  refine ⟨_, rfl, ?_⟩
  exact (ratePhase_frame r1 tool1 tool_name now2).2.1

/--
C4 (amended): for a tool with a non-`None` `cache_ttl` that does not
require an API key, after a successful fresh `execute_tool` call with
`use_cache=True` whose result is truthy and is stored into a cache that is
not full, a second call with the same tool name and the same args that
still passes the rate limiter and happens at or before the expiry time
returns the same result value with `cached=True` and does not invoke the
tool's function a second time (the tools map, including `call_count`, is
unchanged).
-/
theorem ti_cache_spec (r : ToolRegistry) (tool_name : String)
    (args : List (String × Val)) (apiKey : Option String)
    (env : List (String × String)) (now1 : ℚ) (tool : ToolDef) (ttl : ℚ)
    (v : Val)
    (ht : PyDict.pyGet r.tools tool_name = some tool)
    (hak : tool.requires_api_key = false)
    (httl : tool.cache_ttl = some ttl)
    (hrate1 : (ratePhase r tool tool_name now1).2 = true)
    (hfv : tool.func args = .ok v)
    (htv : valTruthy v = true)
    (hmiss : PyDict.pyGet r.cache (cacheKey tool_name args) = none)
    (hsize : r.cache.length < r.max_size) :
    ∃ r1, executeTool r tool_name args true apiKey env now1 =
        .ok (r1, { success := true, result := some v, error := none, cached := false }) ∧
      PyDict.pyGet r1.tools tool_name =
        some ({ tool with call_count := tool.call_count + 1 }) ∧
      ∀ now2 : ℚ,
        (ratePhase r1 ({ tool with call_count := tool.call_count + 1 }) tool_name now2).2 = true →
        now2 ≤ now1 + ttl →
        ∃ r2, executeTool r1 tool_name args true apiKey env now2 =
            .ok (r2, { success := true, result := some v, error := none, cached := true }) ∧
          r2.tools = r1.tools := by
  have hkey : ¬ (tool.requires_api_key = true ∧
      MAS.optTruthy (resolveApiKey tool apiKey env) = false) := by
    rw [hak]
    simp
  have heff : effArgs tool (resolveApiKey tool apiKey env) args = args := by
    unfold effArgs
    rw [if_neg]
    rw [hak]
    simp
  have hcb : (true = true ∧ tool.cache_ttl ≠ none) := ⟨rfl, by rw [httl]; simp⟩
  have hrun1 : executeTool r tool_name args true apiKey env now1 =
      .ok ({ tools := PyDict.pySet r.tools tool_name ({ tool with call_count := tool.call_count + 1 }),
             cache := cacheSet r.cache r.max_size tool_name args v (some ttl) now1,
             max_size := r.max_size,
             rl := recordCall (ratePhase r tool tool_name now1).1.rl tool_name now1 },
           { success := true, result := some v, error := none, cached := false }) := by
    unfold executeTool
    simp only [ht]
    rw [if_neg hkey, hrate1]
    simp only [Bool.true_eq_false, if_false, if_pos hcb]
    rw [(ratePhase_frame r tool tool_name now1).1]
    simp only [cacheGet_miss _ _ _ _ hmiss, cacheCont_none]
    simp only [execPhase, heff, hfv]
    rw [httl]
    simp only [if_pos (show True ∧ (some ttl : Option ℚ) ≠ none from ⟨trivial, by simp⟩)]
    rw [(ratePhase_frame r tool tool_name now1).2.1,
      (ratePhase_frame r tool tool_name now1).2.2]
  refine ⟨_, hrun1, PyDict.pyGet_pySet_self _ _ _, ?_⟩
  intro now2 hrate2 hexp2
  refine ti_cache_spec_second _ tool_name args apiKey env now2 _
      { result := v, timestamp := now1, expiry := some (now1 + ttl) } v
      (now1 + ttl) (PyDict.pyGet_pySet_self _ _ _) hak
      (by rw [httl]; simp) hrate2 ?_ rfl (not_lt.mpr hexp2) rfl htv
  show PyDict.pyGet (cacheSet r.cache r.max_size tool_name args v (some ttl) now1)
    (cacheKey tool_name args) = some
      { result := v, timestamp := now1, expiry := some (now1 + ttl) }
  rw [cacheSet_fresh r.cache r.max_size tool_name args v ttl now1 hmiss hsize]
  exact PyDict.pyGet_pySet_self _ _ _

end TI

namespace TI

/-- Witness for C4 (amended) at `c4WReg`. -/
theorem ti_cache_spec_witness :
    ∃ r1, executeTool c4WReg "cw" [] true none [] 0 =
        .ok (r1, { success := true, result := some (Val.vint 7), error := none,
                   cached := false }) ∧
      PyDict.pyGet r1.tools "cw" =
        some ({ c4WTool with call_count := c4WTool.call_count + 1 }) ∧
      ∀ now2 : ℚ,
        (ratePhase r1 ({ c4WTool with call_count := c4WTool.call_count + 1 })
          "cw" now2).2 = true →
        now2 ≤ 0 + (60 : ℚ) →
        ∃ r2, executeTool r1 "cw" [] true none [] now2 =
            .ok (r2, { success := true, result := some (Val.vint 7),
                       error := none, cached := true }) ∧
          r2.tools = r1.tools :=
  ti_cache_spec c4WReg "cw" [] none [] 0 c4WTool 60 (Val.vint 7)
    (by rfl) (by rfl) (by rfl) (by rfl) (by rfl) (by decide) (by rfl)
    (by decide)

/--
C4 counterexample, three violations of the claim as stated:
(i) a tool whose result is the falsy value `0`: the second call within the
TTL misses (`if cached_result:`), re-executes the function (`call_count`
becomes 2) and returns `cached=False`;
(ii) a cached tool with `rate_limit=1`: the second call within the TTL is
rejected by the rate limiter (checked before the cache) instead of being
served from the cache;
(iii) a tool requiring an api key: the key is injected into the argument
dictionary before caching, so the entry is stored under the augmented key
and the second identical call misses, re-executing the function.
-/
theorem ti_cache_counterexample :
    (resOf (executeTool c4FalsyReg "f0" [] true none [] 0) =
       some { success := true, result := some (Val.vint 0), error := none,
              cached := false } ∧
     resOf (executeTool (regOf (executeTool c4FalsyReg "f0" [] true none [] 0)
         c4FalsyReg) "f0" [] true none [] 1) =
       some { success := true, result := some (Val.vint 0), error := none,
              cached := false } ∧
     (PyDict.pyGet (regOf (executeTool (regOf (executeTool c4FalsyReg "f0" []
         true none [] 0) c4FalsyReg) "f0" [] true none [] 1)
         c4FalsyReg).tools "f0").map (fun t => t.call_count) = some 2) ∧
    (resOf (executeTool (regOf (executeTool c4RateReg "g" [] true none [] 0)
         c4RateReg) "g" [] true none [] 1) =
       some (failRes ("Rate limit exceeded for tool " ++ "g"))) ∧
    (resOf (executeTool (regOf (executeTool c4KeyReg "h" [] true (some "k") [] 0)
         c4KeyReg) "h" [] true (some "k") [] 1) =
       some { success := true, result := some (Val.vint 5), error := none,
              cached := false } ∧
     (PyDict.pyGet (regOf (executeTool (regOf (executeTool c4KeyReg "h" []
         true (some "k") [] 0) c4KeyReg) "h" [] true (some "k") [] 1)
         c4KeyReg).tools "h").map (fun t => t.call_count) = some 2) := by
  refine ⟨⟨?_, ?_, ?_⟩, ?_, ?_, ?_⟩ <;> with_unfolding_all rfl

end TI

namespace PyDict

theorem pyGet_none_of_not_mem [DecidableEq κ] {l : List (κ × β)} {k : κ}
    (h : k ∉ l.map Prod.fst) : pyGet l k = none := by
  induction l with
  | nil => rfl
  | cons p rest ih =>
    simp only [List.map_cons, List.mem_cons, not_or] at h
    obtain ⟨k0, v0⟩ := p
    simp only [pyGet, ih h.2]
    exact if_neg (fun he => h.1 he.symm)

theorem pyGet_isSome_of_mem_fst [DecidableEq κ] {l : List (κ × β)} {k : κ}
    (h : k ∈ l.map Prod.fst) : (pyGet l k).isSome = true := by
  cases hg : pyGet l k with
  | some v => rfl
  | none =>
    exact absurd h (fun hm => by
      obtain ⟨p, hp, he⟩ := List.mem_map.mp hm
      exact pyGet_eq_none hg p.2 (by rw [← he, Prod.mk.eta]; exact hp))

theorem not_mem_fst_of_pyGet_none [DecidableEq κ] {l : List (κ × β)} {k : κ}
    (h : pyGet l k = none) : k ∉ l.map Prod.fst := by
  intro hm
  have hs := pyGet_isSome_of_mem_fst hm
  rw [h] at hs
  exact Bool.noConfusion hs

theorem map_fst_pySet_none [DecidableEq κ] {l : List (κ × β)} {k : κ}
    (h : pyGet l k = none) (v : β) :
    (pySet l k v).map Prod.fst = l.map Prod.fst ++ [k] := by
  induction l with
  | nil => rfl
  | cons p rest ih =>
    obtain ⟨k0, v0⟩ := p
    by_cases hk : k0 = k
    · subst hk; simp [pyGet] at h
    · simp only [pyGet, if_neg hk] at h
      simp [pySet, hk, ih h]

theorem map_fst_pyErase [DecidableEq κ] (l : List (κ × β)) (k : κ) :
    (pyErase l k).map Prod.fst = (l.map Prod.fst).filter (fun a => a ≠ k) := by
  induction l with
  | nil => rfl
  | cons p rest ih =>
    obtain ⟨k0, v0⟩ := p
    by_cases hk : k0 = k
    · subst hk
      simpa [pyErase, List.filter_cons] using ih
    · simpa [pyErase, List.filter_cons, hk] using ih

theorem pyErase_of_not_mem [DecidableEq κ] {l : List (κ × β)} {k : κ}
    (h : k ∉ l.map Prod.fst) : pyErase l k = l := by
  refine List.filter_eq_self.mpr (fun p hp => ?_)
  have hne : p.1 ≠ k := fun he => h (he ▸ List.mem_map_of_mem Prod.fst hp)
  exact decide_eq_true hne

theorem length_pyErase_of_mem [DecidableEq κ] {l : List (κ × β)} {k : κ}
    (hnd : (l.map Prod.fst).Nodup) (h : k ∈ l.map Prod.fst) :
    l.length = (pyErase l k).length + 1 := by
  induction l with
  | nil => simp at h
  | cons p rest ih =>
    obtain ⟨k0, v0⟩ := p
    simp only [List.map_cons, List.nodup_cons] at hnd
    by_cases hk : k0 = k
    · subst hk
      have hrest : pyErase rest k0 = rest := pyErase_of_not_mem hnd.1
      have hstep : pyErase ((k0, v0) :: rest) k0 = pyErase rest k0 := by
        simp [pyErase, List.filter_cons]
      rw [hstep, hrest, List.length_cons]
    · have hkr : k ∈ rest.map Prod.fst := by
        rcases List.mem_cons.mp h with he | hm
        · exact absurd he.symm hk
        · exact hm
      have hlen := ih hnd.2 hkr
      simp [pyErase, List.filter_cons, hk] at hlen ⊢
      omega

end PyDict

namespace ListAux

theorem filter_ne_eq_erase [DecidableEq α] {l : List α} (hnd : l.Nodup) (i : α) :
    l.filter (fun a => a ≠ i) = l.erase i := by
  induction l with
  | nil => rfl
  | cons a t ih =>
    rw [List.nodup_cons] at hnd
    by_cases ha : a = i
    · subst ha
      rw [List.erase_cons_head]
      have hrest : List.filter (fun x => decide (x ≠ a)) t = t :=
        List.filter_eq_self.mpr (fun b hb => decide_eq_true (fun he => hnd.1 (he ▸ hb)))
      simpa [List.filter_cons] using hrest
    · rw [List.erase_cons_tail (by simpa using ha)]
      have hstep : List.filter (fun x => decide (x ≠ i)) (a :: t) =
          a :: List.filter (fun x => decide (x ≠ i)) t := by
        simp [List.filter_cons, ha]
      simp only [ne_eq] at hstep ⊢
      rw [hstep, ih hnd.2]

theorem perm_cons_filter_of_nodup [DecidableEq α] {l : List α} {i : α}
    (hnd : l.Nodup) (hi : i ∈ l) : l.Perm (i :: l.filter (fun a => a ≠ i)) := by
  have h1 := List.perm_cons_erase hi
  rw [← filter_ne_eq_erase hnd i] at h1
  exact h1

theorem getLast?_decomp {α : Type _} {l : List α} {x : α} (hx : l.getLast? = some x) :
    l = l.dropLast ++ [x] := by
  have hne : l ≠ [] := by intro h; subst h; simp at hx
  have he := List.getLast?_eq_getLast l hne
  rw [he] at hx
  rw [← Option.some.inj hx]
  exact (List.dropLast_append_getLast hne).symm

theorem mem_of_getLast?_eq {α : Type _} {l : List α} {x : α} (hx : l.getLast? = some x) :
    x ∈ l := by
  rw [getLast?_decomp hx]
  exact List.mem_append.mpr (Or.inr (List.mem_singleton.mpr rfl))

end ListAux

namespace WM

theorem pqGe_fst {a b : PQItem} (h : pqGe a b) : b.1 ≤ a.1 := by
  simp only [pqGe, pqKey] at h
  rcases (Prod.Lex.le_iff _ _).mp h with hlt | ⟨heq, _⟩
  · exact le_of_lt hlt
  · exact le_of_eq heq

theorem sortDesc_sorted (l : List PQItem) : (sortDesc l).Sorted pqGe :=
  List.sorted_insertionSort pqGe l

theorem sortDesc_perm (l : List PQItem) : (sortDesc l).Perm l :=
  List.perm_insertionSort pqGe l

theorem sorted_fst_of_sorted {l : List PQItem} (h : l.Sorted pqGe) :
    l.Sorted (fun a b : PQItem => b.1 ≤ a.1) :=
  List.Pairwise.imp (fun hab => pqGe_fst hab) h

theorem wmInv_mk {cap : Nat} {m : List (MemId × MemoryEntry)} {q : List PQItem}
    (hs : q.Sorted pqGe) (hp : (q.map Prod.snd).Perm (m.map Prod.fst))
    (hnd : (m.map Prod.fst).Nodup) :
    wmInv ⟨cap, m, q⟩ :=
  ⟨hs, sorted_fst_of_sorted hs, hp, hnd⟩

theorem sorted_getLast_min {l : List PQItem} {x : PQItem}
    (hs : l.Sorted pqGe) (hx : l.getLast? = some x) :
    ∀ y ∈ l, x.1 ≤ y.1 := by
  induction l with
  | nil => simp at hx
  | cons a t ih =>
    rw [List.sorted_cons] at hs
    cases t with
    | nil =>
      simp only [List.getLast?_singleton, Option.some.injEq] at hx
      subst hx
      intro y hy
      rw [List.mem_singleton] at hy
      subst hy
      exact le_refl _
    | cons b t2 =>
      rw [List.getLast?_cons_cons] at hx
      intro y hy
      rcases List.mem_cons.mp hy with rfl | hyt
      · exact pqGe_fst (hs.1 x (ListAux.mem_of_getLast?_eq hx))
      · exact ih hs.2 hx y hyt

theorem map_snd_filter_ne (i : MemId) (l : List PQItem) :
    (l.filter (fun x => x.2 ≠ i)).map Prod.snd = (l.map Prod.snd).filter (fun a => a ≠ i) := by
  induction l with
  | nil => rfl
  | cons x t ih =>
    simp only [ne_eq, decide_not] at ih ⊢
    by_cases hx : x.2 = i
    · simp [List.filter_cons, hx, ih]
    · simp [List.filter_cons, hx, ih]

end WM

namespace WM

theorem addNoCap_fst (wm : WorkingMemory) (c mt src : String) (imp now : ℚ) :
    (addNoCap wm c mt src imp now).1 =
      ⟨wm.capacity,
       PyDict.pySet wm.memories (entryId (mkEntry c mt src imp now)) (mkEntry c mt src imp now),
       sortDesc (wm.priority_queue ++
         [(calcPriority (mkEntry c mt src imp now) now, entryId (mkEntry c mt src imp now))])⟩ := rfl

theorem addNoCap_snd (wm : WorkingMemory) (c mt src : String) (imp now : ℚ) :
    (addNoCap wm c mt src imp now).2 = entryId (mkEntry c mt src imp now) := rfl

theorem add_fst (wm : WorkingMemory) (c mt src : String) (imp now : ℚ) :
    (add wm c mt src imp now).1 =
      if (addNoCap wm c mt src imp now).1.memories.length > wm.capacity then
        evictLowestPriority (addNoCap wm c mt src imp now).1
      else (addNoCap wm c mt src imp now).1 := rfl

theorem add_pair (wm : WorkingMemory) (c mt src : String) (imp now : ℚ) :
    add wm c mt src imp now = ((add wm c mt src imp now).1, (addNoCap wm c mt src imp now).2) := rfl

theorem evict_eq_none {wm : WorkingMemory} (h : wm.priority_queue.getLast? = none) :
    evictLowestPriority wm = wm := by
  simp only [evictLowestPriority, h]

theorem evict_eq_some {wm : WorkingMemory} {x : PQItem}
    (h : wm.priority_queue.getLast? = some x) :
    evictLowestPriority wm =
      ⟨wm.capacity,
       if (PyDict.pyGet wm.memories x.2).isSome then PyDict.pyErase wm.memories x.2
       else wm.memories,
       wm.priority_queue.dropLast⟩ := by
  simp only [evictLowestPriority, h]

theorem get_eq_none {wm : WorkingMemory} {i : MemId} (now : ℚ)
    (h : PyDict.pyGet wm.memories i = none) :
    get wm i now = (wm, none) := by
  simp only [get, h]

theorem get_eq_some {wm : WorkingMemory} {i : MemId} {now : ℚ} {e : MemoryEntry}
    (h : PyDict.pyGet wm.memories i = some e) :
    get wm i now =
      (⟨wm.capacity,
        PyDict.pySet wm.memories i
          ⟨e.content, e.memory_type, e.source, e.importance, e.timestamp, now, e.access_count + 1⟩,
        sortDesc ((wm.priority_queue.filter (fun x => x.2 ≠ i)) ++
          [(calcPriority ⟨e.content, e.memory_type, e.source, e.importance, e.timestamp, now,
              e.access_count + 1⟩ now, i)])⟩,
       some e.content) := by
  simp only [get, h]

theorem get_all_fst (wm : WorkingMemory) (mt : Option String) (now : ℚ) :
    (get_all wm mt now).1 =
      ⟨wm.capacity, accessAll mt now wm.memories,
       sortDesc ((accessAll mt now wm.memories).map (fun p => (calcPriority p.2 now, p.1)))⟩ := rfl

theorem remove_eq_pos {wm : WorkingMemory} {i : MemId}
    (hg : (PyDict.pyGet wm.memories i).isSome = true) :
    remove wm i = (⟨wm.capacity, PyDict.pyErase wm.memories i,
      wm.priority_queue.filter (fun x => x.2 ≠ i)⟩, true) := by
  simp only [remove, if_pos hg]

theorem remove_eq_neg {wm : WorkingMemory} {i : MemId}
    (hg : ¬((PyDict.pyGet wm.memories i).isSome = true)) :
    remove wm i = (wm, false) := by
  simp only [remove, if_neg hg]

theorem wmInv_evict {wm : WorkingMemory} (h : wmInv wm) : wmInv (evictLowestPriority wm) := by
  obtain ⟨hs, hsf, hp, hnd⟩ := h
  cases hx : wm.priority_queue.getLast? with
  | none => rw [evict_eq_none hx]; exact ⟨hs, hsf, hp, hnd⟩
  | some x =>
    have hxmem : x ∈ wm.priority_queue := ListAux.mem_of_getLast?_eq hx
    have hxid : x.2 ∈ wm.memories.map Prod.fst :=
      hp.mem_iff.mp (List.mem_map_of_mem Prod.snd hxmem)
    have hget : (PyDict.pyGet wm.memories x.2).isSome = true :=
      PyDict.pyGet_isSome_of_mem_fst hxid
    rw [evict_eq_some hx, if_pos hget]
    refine wmInv_mk (List.Pairwise.sublist (List.dropLast_sublist _) hs) ?_ ?_
    · have hdec := ListAux.getLast?_decomp hx
      have hq : wm.priority_queue.map Prod.snd =
          (wm.priority_queue.dropLast.map Prod.snd) ++ [x.2] := by
        conv_lhs => rw [hdec]
        simp
      have hp2 := hp
      rw [hq] at hp2
      have hkeys : (wm.memories.map Prod.fst).Perm
          (x.2 :: (wm.memories.map Prod.fst).filter (fun a => a ≠ x.2)) :=
        ListAux.perm_cons_filter_of_nodup hnd hxid
      have hchain : (x.2 :: wm.priority_queue.dropLast.map Prod.snd).Perm
          (x.2 :: (wm.memories.map Prod.fst).filter (fun a => a ≠ x.2)) :=
        ((List.perm_append_singleton x.2 _).symm.trans hp2).trans hkeys
      rw [PyDict.map_fst_pyErase]
      exact hchain.cons_inv
    · rw [PyDict.map_fst_pyErase]
      exact List.Nodup.sublist (List.filter_sublist _) hnd

theorem wmInv_append_sort {wm : WorkingMemory} (h : wmInv wm) (p : ℚ) {i : MemId}
    (e : MemoryEntry) (hfresh : i ∉ wm.memories.map Prod.fst) :
    wmInv ⟨wm.capacity, PyDict.pySet wm.memories i e,
      sortDesc (wm.priority_queue ++ [(p, i)])⟩ := by
  obtain ⟨hs, hsf, hp, hnd⟩ := h
  have hnone : PyDict.pyGet wm.memories i = none := PyDict.pyGet_none_of_not_mem hfresh
  refine wmInv_mk (sortDesc_sorted _) ?_ ?_
  · rw [PyDict.map_fst_pySet_none hnone]
    refine ((sortDesc_perm _).map Prod.snd).trans ?_
    rw [List.map_append]
    exact hp.append_right _
  · rw [PyDict.map_fst_pySet_none hnone, List.nodup_append]
    refine ⟨hnd, List.nodup_singleton i, fun a ha hb => ?_⟩
    rw [List.mem_singleton] at hb
    subst hb
    exact hfresh ha

theorem wmInv_addNoCap {wm : WorkingMemory} {c mt src : String} {imp now : ℚ}
    (h : wmInv wm)
    (hfresh : entryId (mkEntry c mt src imp now) ∉ wm.memories.map Prod.fst) :
    wmInv (addNoCap wm c mt src imp now).1 := by
  rw [addNoCap_fst]
  exact wmInv_append_sort h _ _ hfresh

theorem wmInv_add {wm : WorkingMemory} {c mt src : String} {imp now : ℚ}
    (h : wmInv wm)
    (hfresh : entryId (mkEntry c mt src imp now) ∉ wm.memories.map Prod.fst) :
    wmInv (add wm c mt src imp now).1 := by
  rw [add_fst]
  by_cases hc : (addNoCap wm c mt src imp now).1.memories.length > wm.capacity
  · rw [if_pos hc]
    exact wmInv_evict (wmInv_addNoCap h hfresh)
  · rw [if_neg hc]
    exact wmInv_addNoCap h hfresh

theorem wmInv_get {wm : WorkingMemory} (i : MemId) (now : ℚ) (h : wmInv wm) :
    wmInv (get wm i now).1 := by
  obtain ⟨hs, hsf, hp, hnd⟩ := h
  cases hg : PyDict.pyGet wm.memories i with
  | none => rw [get_eq_none now hg]; exact ⟨hs, hsf, hp, hnd⟩
  | some e =>
    rw [get_eq_some hg]
    have hi : i ∈ wm.memories.map Prod.fst :=
      List.mem_map_of_mem Prod.fst (PyDict.pyGet_mem hg)
    refine wmInv_mk (sortDesc_sorted _) ?_ ?_
    · rw [PyDict.map_fst_pySet_mem hg]
      refine ((sortDesc_perm _).map Prod.snd).trans ?_
      rw [List.map_append, map_snd_filter_ne]
      have h1 : ((wm.priority_queue.map Prod.snd).filter (fun a => a ≠ i)).Perm
          ((wm.memories.map Prod.fst).filter (fun a => a ≠ i)) := hp.filter _
      refine (List.perm_append_singleton i _).trans ?_
      refine (List.Perm.cons i h1).trans ?_
      exact (ListAux.perm_cons_filter_of_nodup hnd hi).symm
    · rw [PyDict.map_fst_pySet_mem hg]
      exact hnd

theorem map_fst_accessAll (mt : Option String) (now : ℚ) (l : List (MemId × MemoryEntry)) :
    (accessAll mt now l).map Prod.fst = l.map Prod.fst := by
  induction l with
  | nil => rfl
  | cons p t ih =>
    simp only [accessAll, List.map_cons] at ih ⊢
    by_cases hm : typeMatches mt p.2
    · simp [hm, ih]
    · simp [hm, ih]

theorem wmInv_get_all {wm : WorkingMemory} (mt : Option String) (now : ℚ) (h : wmInv wm) :
    wmInv (get_all wm mt now).1 := by
  obtain ⟨hs, hsf, hp, hnd⟩ := h
  rw [get_all_fst]
  refine wmInv_mk (sortDesc_sorted _) ?_ ?_
  · refine ((sortDesc_perm _).map Prod.snd).trans ?_
    rw [List.map_map]
    exact List.Perm.refl _
  · rw [map_fst_accessAll]
    exact hnd

theorem wmInv_remove {wm : WorkingMemory} (i : MemId) (h : wmInv wm) :
    wmInv (remove wm i).1 := by
  obtain ⟨hs, hsf, hp, hnd⟩ := h
  by_cases hg : (PyDict.pyGet wm.memories i).isSome = true
  · rw [remove_eq_pos hg]
    have hi : i ∈ wm.memories.map Prod.fst := by
      cases hgf : PyDict.pyGet wm.memories i with
      | none => rw [hgf] at hg; simp at hg
      | some e => exact List.mem_map_of_mem Prod.fst (PyDict.pyGet_mem hgf)
    refine wmInv_mk (List.Pairwise.sublist (List.filter_sublist _) hs) ?_ ?_
    · rw [map_snd_filter_ne, PyDict.map_fst_pyErase]
      exact hp.filter _
    · rw [PyDict.map_fst_pyErase]
      exact List.Nodup.sublist (List.filter_sublist _) hnd
  · rw [remove_eq_neg hg]
    exact ⟨hs, hsf, hp, hnd⟩

theorem wmInv_clear (wm : WorkingMemory) : wmInv (clear wm) :=
  ⟨List.sorted_nil, List.sorted_nil, List.Perm.nil, List.nodup_nil⟩

end WM

namespace ListAux

theorem exists_getLast?_of_ne_nil {α : Type _} {l : List α} (h : l ≠ []) :
    ∃ x, l.getLast? = some x :=
  ⟨l.getLast h, List.getLast?_eq_getLast l h⟩

end ListAux

namespace WM

/--
C6 (corrected): provided the queue invariant holds, the stored entries do not
exceed the capacity and the id of the new entry is fresh, `add` keeps the
entry count at most `capacity`; when the store was exactly full, the pair
popped by `_evict_lowest_priority` is the last pair of the descending-sorted
queue, its priority is minimal among all queued pairs, and the eviction
restores the entry count to `capacity`.  (Unrestricted the claim is false: a
stale duplicate queue pair makes the eviction pop an id that is no longer
stored, and the count then exceeds the capacity, see the counterexample.)
-/
theorem wm_capacity_spec (wm : WorkingMemory) (c mt src : String) (imp now : ℚ)
    (hinv : wmInv wm) (hcap : wm.memories.length ≤ wm.capacity)
    (hfresh : entryId (mkEntry c mt src imp now) ∉ wm.memories.map Prod.fst) :
    (add wm c mt src imp now).1.memories.length ≤ wm.capacity ∧
    (wm.memories.length = wm.capacity → ∃ x : PQItem,
      (addNoCap wm c mt src imp now).1.priority_queue.getLast? = some x ∧
      (∀ y ∈ (addNoCap wm c mt src imp now).1.priority_queue, x.1 ≤ y.1) ∧
      (add wm c mt src imp now).1 =
        evictLowestPriority (addNoCap wm c mt src imp now).1 ∧
      (add wm c mt src imp now).1.memories.length = wm.capacity) := by
  have hrinv := wmInv_addNoCap hinv hfresh
  have hnone : PyDict.pyGet wm.memories (entryId (mkEntry c mt src imp now)) = none :=
    PyDict.pyGet_none_of_not_mem hfresh
  have hrkeys : (addNoCap wm c mt src imp now).1.memories.map Prod.fst =
      wm.memories.map Prod.fst ++ [entryId (mkEntry c mt src imp now)] := by
    rw [addNoCap_fst]
    exact PyDict.map_fst_pySet_none hnone _
  have hrlen : (addNoCap wm c mt src imp now).1.memories.length = wm.memories.length + 1 := by
    have hl := congrArg List.length hrkeys
    simpa using hl
  by_cases hov : (addNoCap wm c mt src imp now).1.memories.length > wm.capacity
  case neg =>
    have hle : (add wm c mt src imp now).1.memories.length ≤ wm.capacity := by
      rw [add_fst, if_neg hov]
      omega
    refine ⟨hle, fun hlc => absurd ?_ hov⟩
    omega
  case pos =>
    obtain ⟨hrs, hrsf, hrp, hrnd⟩ := hrinv
    have hqlen : (addNoCap wm c mt src imp now).1.priority_queue.length =
        wm.memories.length + 1 := by
      have h1 := hrp.length_eq
      simp only [List.length_map] at h1
      omega
    have hqne : (addNoCap wm c mt src imp now).1.priority_queue ≠ [] := by
      intro h0
      rw [h0] at hqlen
      simp at hqlen
    obtain ⟨x, hx⟩ := ListAux.exists_getLast?_of_ne_nil hqne
    have hmin : ∀ y ∈ (addNoCap wm c mt src imp now).1.priority_queue, x.1 ≤ y.1 :=
      sorted_getLast_min hrs hx
    have hxid : x.2 ∈ (addNoCap wm c mt src imp now).1.memories.map Prod.fst :=
      hrp.mem_iff.mp (List.mem_map_of_mem Prod.snd (ListAux.mem_of_getLast?_eq hx))
    have hget : (PyDict.pyGet (addNoCap wm c mt src imp now).1.memories x.2).isSome = true :=
      PyDict.pyGet_isSome_of_mem_fst hxid
    have haddfst : (add wm c mt src imp now).1 =
        evictLowestPriority (addNoCap wm c mt src imp now).1 := by
      rw [add_fst, if_pos hov]
    have hevlen : (evictLowestPriority (addNoCap wm c mt src imp now).1).memories.length =
        wm.memories.length := by
      rw [evict_eq_some hx, if_pos hget]
      have hl2 := PyDict.length_pyErase_of_mem hrnd hxid
      show (PyDict.pyErase (addNoCap wm c mt src imp now).1.memories x.2).length =
        wm.memories.length
      omega
    have hlc2 : wm.memories.length = wm.capacity := by omega
    refine ⟨?_, fun _ => ⟨x, hx, hmin, haddfst, ?_⟩⟩
    · rw [haddfst, hevlen]
      exact hcap
    · rw [haddfst, hevlen, hlc2]

/--
Witness for C6 (amended) at a capacity-0 memory: the single `add` overflows
immediately and the eviction removes the just-added entry.
-/
theorem wm_capacity_spec_witness :
    (add (mkWM 0) "a" "general" "agent" 0.5 0).1.memories.length ≤ 0 ∧
    ((mkWM 0).memories.length = 0 → ∃ x : PQItem,
      (addNoCap (mkWM 0) "a" "general" "agent" 0.5 0).1.priority_queue.getLast? = some x ∧
      (∀ y ∈ (addNoCap (mkWM 0) "a" "general" "agent" 0.5 0).1.priority_queue, x.1 ≤ y.1) ∧
      (add (mkWM 0) "a" "general" "agent" 0.5 0).1 =
        evictLowestPriority (addNoCap (mkWM 0) "a" "general" "agent" 0.5 0).1 ∧
      (add (mkWM 0) "a" "general" "agent" 0.5 0).1.memories.length = 0) :=
  wm_capacity_spec (mkWM 0) "a" "general" "agent" 0.5 0
    ⟨List.sorted_nil, List.sorted_nil, List.Perm.nil, List.nodup_nil⟩
    (le_refl 0) (by simp [mkWM])

/--
C6 counterexample: in `c6S` (capacity 1) the fourth `add` pops the stale
queue pair of the already evicted id of `"a"`, deletes nothing, and leaves
two stored entries in a capacity-1 memory.
-/
theorem wm_capacity_counterexample : c6S.capacity = 1 ∧ c6S.memories.length = 2 := by
  refine ⟨?_, ?_⟩ <;> with_unfolding_all rfl

/--
C7 (corrected): the invariant `wmInv` — the priority queue is sorted under
the full Python sort order, hence in non-increasing priority order, and its
ids are a permutation of the keys of `memories`, one pair per stored memory —
is preserved by `add` (when the id of the new entry is fresh), `get`,
`get_all`, `remove` and `clear`.  (The freshness proviso is needed: re-adding
an existing id duplicates its queue pair, see the counterexample.)
-/
theorem wm_priority_queue_invariant :
    (∀ (wm : WorkingMemory) (c mt src : String) (imp now : ℚ), wmInv wm →
      entryId (mkEntry c mt src imp now) ∉ wm.memories.map Prod.fst →
      wmInv (add wm c mt src imp now).1) ∧
    (∀ (wm : WorkingMemory) (i : MemId) (now : ℚ), wmInv wm → wmInv (get wm i now).1) ∧
    (∀ (wm : WorkingMemory) (mt : Option String) (now : ℚ), wmInv wm →
      wmInv (get_all wm mt now).1) ∧
    (∀ (wm : WorkingMemory) (i : MemId), wmInv wm → wmInv (remove wm i).1) ∧
    (∀ wm : WorkingMemory, wmInv (clear wm)) :=
  ⟨fun _ _ _ _ _ _ h hf => wmInv_add h hf,
   fun _ i now h => wmInv_get i now h,
   fun _ mt now h => wmInv_get_all mt now h,
   fun _ i h => wmInv_remove i h,
   wmInv_clear⟩

/--
Witness for C7 (amended): the invariant holds after each of the five
operations on concrete working memories.
-/
theorem wm_priority_queue_invariant_witness :
    wmInv (add (mkWM 50) "a" "general" "agent" 0.5 0).1 ∧
    wmInv (get (add (mkWM 50) "a" "general" "agent" 0.5 0).1 ("a", 0, "general", "agent") 5).1 ∧
    wmInv (get_all (mkWM 50) none 0).1 ∧
    wmInv (remove (mkWM 50) ("a", 0, "general", "agent")).1 ∧
    wmInv (clear (mkWM 50)) := by
  have h0 : wmInv (mkWM 50) := wm_priority_queue_invariant.2.2.2.2 (mkWM 50)
  have h1 : wmInv (add (mkWM 50) "a" "general" "agent" 0.5 0).1 :=
    wm_priority_queue_invariant.1 (mkWM 50) "a" "general" "agent" 0.5 0 h0 (by simp [mkWM])
  exact ⟨h1,
    wm_priority_queue_invariant.2.1 _ ("a", 0, "general", "agent") 5 h1,
    wm_priority_queue_invariant.2.2.1 (mkWM 50) none 0 h0,
    wm_priority_queue_invariant.2.2.2.1 (mkWM 50) ("a", 0, "general", "agent") h0,
    wm_priority_queue_invariant.2.2.2.2 (mkWM 50)⟩

/--
C7 counterexample: adding the same content, type, source and timestamp twice
leaves two queue pairs for one stored memory, so the queue ids are not a
permutation of the dict keys.
-/
theorem wm_priority_queue_counterexample :
    c7S.priority_queue.length = 2 ∧ c7S.memories.length = 1 ∧
    ¬ ((c7S.priority_queue.map Prod.snd).Perm (c7S.memories.map Prod.fst)) := by
  have hq : c7S.priority_queue.length = 2 := by with_unfolding_all rfl
  have hm : c7S.memories.length = 1 := by with_unfolding_all rfl
  refine ⟨hq, hm, fun h => ?_⟩
  have hl := h.length_eq
  rw [List.length_map, List.length_map, hq, hm] at hl
  exact absurd hl (by decide)

end WM

namespace PyDict

theorem pySet_eq_append [DecidableEq κ] {l : List (κ × β)} {k : κ}
    (h : pyGet l k = none) (v : β) : pySet l k v = l ++ [(k, v)] := by
  induction l with
  | nil => rfl
  | cons p rest ih =>
    obtain ⟨k0, v0⟩ := p
    by_cases hk : k0 = k
    · subst hk; simp [pyGet] at h
    · simp only [pyGet, if_neg hk] at h
      simp [pySet, hk, ih h]

end PyDict

namespace EM

theorem eventIdOf_ne_empty (t : ℚ) : eventIdOf t ≠ "" := by
  intro h
  have hl := congrArg String.length h
  rw [eventIdOf, String.length_append] at hl
  rw [show "event_".length = 6 from rfl] at hl
  rw [show ("" : String).length = 0 from rfl] at hl
  omega

theorem oldestEpisode_cons_none {a : ℚ × Episode} {t : List (ℚ × Episode)}
    (h : oldestEpisode t = none) : oldestEpisode (a :: t) = some a := by
  simp only [oldestEpisode, h]

theorem oldestEpisode_cons_some {a q : ℚ × Episode} {t : List (ℚ × Episode)}
    (h : oldestEpisode t = some q) :
    oldestEpisode (a :: t) =
      if q.2.start_time < a.2.start_time then some q else some a := by
  simp only [oldestEpisode, h]

theorem oldestEpisode_mem {l : List (ℚ × Episode)} {p : ℚ × Episode}
    (h : oldestEpisode l = some p) : p ∈ l := by
  induction l with
  | nil => simp [oldestEpisode] at h
  | cons a t ih =>
    cases hrec : oldestEpisode t with
    | none =>
      rw [oldestEpisode_cons_none hrec] at h
      exact List.mem_cons.mpr (Or.inl (Option.some.inj h).symm)
    | some q =>
      rw [oldestEpisode_cons_some hrec] at h
      by_cases hq : q.2.start_time < a.2.start_time
      · rw [if_pos hq] at h
        obtain rfl : q = p := Option.some.inj h
        exact List.mem_cons_of_mem a (ih hrec)
      · rw [if_neg hq] at h
        exact List.mem_cons.mpr (Or.inl (Option.some.inj h).symm)

theorem oldestEpisode_cons (c : ℚ × Episode) (rest : List (ℚ × Episode)) :
    ∃ b, oldestEpisode (c :: rest) = some b := by
  cases hrec : oldestEpisode rest with
  | none => exact ⟨c, oldestEpisode_cons_none hrec⟩
  | some q =>
    by_cases hq : q.2.start_time < c.2.start_time
    · exact ⟨q, by rw [oldestEpisode_cons_some hrec, if_pos hq]⟩
    · exact ⟨c, by rw [oldestEpisode_cons_some hrec, if_neg hq]⟩

theorem oldest_of_append_le (x : ℚ × Episode) {l : List (ℚ × Episode)}
    (hex : ∃ q ∈ l, q.2.start_time ≤ x.2.start_time) :
    ∃ r ∈ l, oldestEpisode (l ++ [x]) = some r := by
  induction l with
  | nil =>
    obtain ⟨q, hq, _⟩ := hex
    simp at hq
  | cons a t ih =>
    obtain ⟨q, hq, hqle⟩ := hex
    rcases List.mem_cons.mp hq with rfl | hqt
    · obtain ⟨b, hb⟩ : ∃ b, oldestEpisode (t ++ [x]) = some b := by
        cases t with
        | nil => exact oldestEpisode_cons x []
        | cons c rest => exact oldestEpisode_cons c (rest ++ [x])
      have hunf : oldestEpisode ((q :: t) ++ [x]) =
          if b.2.start_time < q.2.start_time then some b else some q := by
        rw [List.cons_append, oldestEpisode_cons_some hb]
      by_cases hlt : b.2.start_time < q.2.start_time
      · have hbmem : b ∈ t ++ [x] := oldestEpisode_mem hb
        rcases List.mem_append.mp hbmem with hbt | hbx
        · exact ⟨b, List.mem_cons_of_mem q hbt, by rw [hunf, if_pos hlt]⟩
        · rw [List.mem_singleton] at hbx
          subst hbx
          exact absurd hlt (not_lt.mpr hqle)
      · exact ⟨q, List.mem_cons_self q t, by rw [hunf, if_neg hlt]⟩
    · obtain ⟨r, hrt, hr⟩ := ih ⟨q, hqt, hqle⟩
      have hunf : oldestEpisode ((a :: t) ++ [x]) =
          if r.2.start_time < a.2.start_time then some r else some a := by
        rw [List.cons_append, oldestEpisode_cons_some hr]
      by_cases hlt : r.2.start_time < a.2.start_time
      · exact ⟨r, List.mem_cons_of_mem a hrt, by rw [hunf, if_pos hlt]⟩
      · exact ⟨a, List.mem_cons_self a t, by rw [hunf, if_neg hlt]⟩

theorem start_episode_fst (m : EpisodicMemory) (name : Option String) (now : ℚ) :
    (start_episode m name now).1 =
      if (PyDict.pySet m.episodes now
          ⟨nameOr name ("Episode " ++ toString (m.episodes.length + 1)), now, none, []⟩).length >
          m.max_episodes then
        removeOldestEpisode ⟨m.max_episodes, PyDict.pySet m.episodes now
          ⟨nameOr name ("Episode " ++ toString (m.episodes.length + 1)), now, none, []⟩, some now⟩
      else ⟨m.max_episodes, PyDict.pySet m.episodes now
        ⟨nameOr name ("Episode " ++ toString (m.episodes.length + 1)), now, none, []⟩, some now⟩ := rfl

theorem start_episode_snd (m : EpisodicMemory) (name : Option String) (now : ℚ) :
    (start_episode m name now).2 = now := rfl

theorem add_event_none_some {m : EpisodicMemory} (etype content : String) {now : ℚ}
    {ep : Episode} (hcur : m.current_episode = none)
    (hpg : PyDict.pyGet (start_episode m none now).1.episodes now = some ep) :
    add_event m etype content none now =
      (⟨(start_episode m none now).1.max_episodes,
        PyDict.pySet (start_episode m none now).1.episodes now
          ⟨ep.name, ep.start_time, ep.end_time,
           ep.events ++ [⟨eventIdOf now, etype, content, now⟩]⟩,
        (start_episode m none now).1.current_episode⟩, eventIdOf now) := by
  simp only [add_event, hcur, start_episode_snd, hpg]

end EM

namespace EM

/--
C10 (corrected): when no episode is current, the id of the new episode is
fresh and the new episode survives the overflow pruning (the store is below
`max_episodes`, or some stored episode starts no later than `now`),
`add_event` with no episode id starts a new episode, makes it the current
episode, appends the event to its event list and returns the non-empty event
id.  (Unrestricted the claim is false: with `max_episodes = 0` the freshly
started episode is pruned again before the event is stored, see the
counterexample.)
-/
theorem em_add_event_spec (m : EpisodicMemory) (etype content : String) (now : ℚ)
    (hcur : m.current_episode = none)
    (hfresh : PyDict.pyGet m.episodes now = none)
    (hroom : m.episodes.length < m.max_episodes ∨ ∃ q ∈ m.episodes, q.2.start_time ≤ now) :
    (add_event m etype content none now).2 = eventIdOf now ∧
    eventIdOf now ≠ "" ∧
    (add_event m etype content none now).1.current_episode = some now ∧
    ∃ ep : Episode,
      PyDict.pyGet (add_event m etype content none now).1.episodes now = some ep ∧
      ep.events = [⟨eventIdOf now, etype, content, now⟩] := by
  have hep0 : (PyDict.pySet m.episodes now
      ⟨nameOr none ("Episode " ++ toString (m.episodes.length + 1)), now, none, []⟩) =
      m.episodes ++ [(now,
        ⟨nameOr none ("Episode " ++ toString (m.episodes.length + 1)), now, none, []⟩)] :=
    PyDict.pySet_eq_append hfresh _
  have hlen1 : (PyDict.pySet m.episodes now
      ⟨nameOr none ("Episode " ++ toString (m.episodes.length + 1)), now, none, []⟩).length =
      m.episodes.length + 1 := by
    rw [hep0]
    simp
  have hsep : PyDict.pyGet (start_episode m none now).1.episodes now =
      some ⟨nameOr none ("Episode " ++ toString (m.episodes.length + 1)), now, none, []⟩ ∧
      (start_episode m none now).1.current_episode = some now := by
    rw [start_episode_fst]
    by_cases hov : (PyDict.pySet m.episodes now
        ⟨nameOr none ("Episode " ++ toString (m.episodes.length + 1)), now, none, []⟩).length >
        m.max_episodes
    · rw [if_pos hov]
      rcases hroom with hlt | ⟨q, hq, hqle⟩
      · exact absurd hov (by omega)
      · obtain ⟨r, hrmem, hold⟩ := oldest_of_append_le (x := (now,
          ⟨nameOr none ("Episode " ++ toString (m.episodes.length + 1)), now, none, []⟩))
          ⟨q, hq, hqle⟩
        have hold2 : oldestEpisode (PyDict.pySet m.episodes now
            ⟨nameOr none ("Episode " ++ toString (m.episodes.length + 1)), now, none, []⟩) =
            some r := by
          rw [hep0]
          exact hold
        have hrne : now ≠ r.1 := by
          intro he
          exact PyDict.not_mem_fst_of_pyGet_none hfresh
            (he ▸ List.mem_map_of_mem Prod.fst hrmem)
        have hROe : (removeOldestEpisode ⟨m.max_episodes, PyDict.pySet m.episodes now
            ⟨nameOr none ("Episode " ++ toString (m.episodes.length + 1)), now, none, []⟩,
            some now⟩).episodes =
            PyDict.pyErase (PyDict.pySet m.episodes now
              ⟨nameOr none ("Episode " ++ toString (m.episodes.length + 1)), now, none, []⟩)
              r.1 := by
          simp only [removeOldestEpisode, hold2]
        have hROc : (removeOldestEpisode ⟨m.max_episodes, PyDict.pySet m.episodes now
            ⟨nameOr none ("Episode " ++ toString (m.episodes.length + 1)), now, none, []⟩,
            some now⟩).current_episode = some now := by
          simp only [removeOldestEpisode, hold2]
        constructor
        · rw [hROe, PyDict.pyGet_pyErase_ne hrne]
          exact PyDict.pyGet_pySet_self m.episodes now _
        · rw [hROc]
    · rw [if_neg hov]
      exact ⟨PyDict.pyGet_pySet_self m.episodes now _, rfl⟩
  have hfinal := add_event_none_some etype content hcur hsep.1
  rw [hfinal]
  refine ⟨rfl, eventIdOf_ne_empty now, hsep.2, ?_⟩
  refine ⟨⟨nameOr none ("Episode " ++ toString (m.episodes.length + 1)), now, none,
    [] ++ [⟨eventIdOf now, etype, content, now⟩]⟩, ?_, by simp⟩
  exact PyDict.pyGet_pySet_self _ now _

/--
Witness for C10 (amended) at an empty episodic memory with room for one
episode.
-/
theorem em_add_event_spec_witness :
    (add_event (mkEM 1) "action" "did" none 0).2 = eventIdOf 0 ∧
    eventIdOf 0 ≠ "" ∧
    (add_event (mkEM 1) "action" "did" none 0).1.current_episode = some 0 ∧
    ∃ ep : Episode,
      PyDict.pyGet (add_event (mkEM 1) "action" "did" none 0).1.episodes 0 = some ep ∧
      ep.events = [⟨eventIdOf 0, "action", "did", 0⟩] :=
  em_add_event_spec (mkEM 1) "action" "did" 0 rfl rfl (Or.inl (by decide))

/--
C10 counterexample: with `max_episodes = 0` the auto-started episode is
removed by the overflow check inside `start_episode`, so `add_event` finds no
episode, stores nothing and returns the empty string, while
`current_episode` is left dangling on the pruned episode.
-/
theorem em_add_event_counterexample :
    (add_event (mkEM 0) "observation" "x" none 0).2 = "" ∧
    (add_event (mkEM 0) "observation" "x" none 0).1.episodes = [] ∧
    (add_event (mkEM 0) "observation" "x" none 0).1.current_episode = some 0 := by
  refine ⟨?_, ?_, ?_⟩ <;> with_unfolding_all rfl

end EM
